import Mathlib

/-!
Verification of the task-derivation engine of `jira-juggler`
(source of record: `src/mlx/jira_juggler/jira_juggler.py`).

The embedding is a shallow one:

* Jira issues are records (`JiraIssue`) holding exactly the fields the
  mapper reads.  A Python attribute that may be *absent* as well as *null*
  (only `timeoriginalestimate` is branched on that way, via `hasattr`) is
  modelled as `Option (Option Int)`; attributes only tested with `is not
  None` or for truthiness are a single `Option`.
* Python floats that hold day-amounts are modelled as `ℚ` (all arithmetic
  performed on them in the source is exact decimal/divide-by-28800
  arithmetic, so `ℚ` is faithful).
* Change-history timestamps are modelled as `Int` (the source sorts the
  raw ISO strings and compares the parsed datetimes; ISO timestamps order
  the same way under both, so one totally ordered stamp type suffices).
* A `JugglerTask` is a rose tree: the task's scalar state (`TaskCore`)
  plus the `children` list that `build_hierarchical_tasks` populates.
* Mutating passes (`validate_tasks`, `_process_epic_logic`,
  `link_to_preceding_task`) become state-passing functions; Python
  exceptions (the container assertion, `KeyError`, `TypeError` on the
  unguarded datetime/None operations) become `Except String`.
* `datetime.strftime`/`to_juggler_date` on a parsed changelog stamp is
  rendered abstractly (`toString` of the stamp): no claim inspects the
  textual format of a date, only which date is used.
* The network user-lookup inside `to_username` is a parameter
  `resolve : String → String`; which history entry is *selected* is the
  verified logic, name resolution is outside the program text available.
-/

/-- `to_identifier`: converts a Jira key to a TaskJuggler identifier
(`key.replace('-', '_')`; a single-character replace is exactly a
character-wise map, spelled on the character list because core's
position-based string functions do not reduce in the kernel). -/
def to_identifier (key : String) : String :=
  ⟨key.data.map (fun c => if c = '-' then '_' else c)⟩

/-- Python's `str.lower` (ASCII case folding, character-wise). -/
def strLower (s : String) : String := ⟨s.data.map Char.toLower⟩

/-- `JugglerTaskEffort.FACTOR`: seconds in an 8-hour workday (`8.0 * 60 * 60`). -/
def effortFactor : ℚ := 28800

/-- `JugglerTaskEffort.MINIMAL_VALUE` (= `DEFAULT_VALUE`): `1.0 / 8`
(spelled `mkRat` so that the kernel can evaluate it on witnesses). -/
def minimalEffort : ℚ := mkRat 1 8

theorem minimalEffort_eq : minimalEffort = 1 / 8 := by
  unfold minimalEffort
  rw [Rat.mkRat_eq_div]
  norm_num

/-- Python truthiness of an optional string (`None` and `''` are falsy). -/
def optTruthy : Option String → Bool
  | none => false
  | some s => s ≠ ""

/-- The value of a task's `time` property.  In the source it is a plain
string; the backdated start token built by `link_to_preceding_task`
(`f"%{{{date} - {days}d}}"`) is kept structured here so that theorems can
speak about the backdating amount without modelling float formatting. -/
inductive TimeVal where
  | lit (s : String)
  | backdated (cur : String) (days : ℚ)
  deriving DecidableEq, Repr

/-- Scalar state of a `JugglerTask`: its key/summary/status, the four
task-juggler properties (`allocate`, `effort`, `depends`, `time`), the
raw issue fields that later passes re-read
(`timeoriginalestimate`/`timeestimate`/`timespent`), the hierarchy
fields, and the resolution date. -/
structure TaskCore where
  key : String
  summary : String
  statusName : String
  allocate : Option String
  effort : Option ℚ
  depends : List String
  timeName : String
  timeValue : TimeVal
  origEstimate : Option (Option Int)
  remEstimate : Option Int
  timespent : Option Int
  parentKey : Option String
  epicKey : Option String
  isEpic : Bool
  resolvedAtDate : Option Int
  deriving DecidableEq, Repr

/-- A task for Task-Juggler: its scalar state plus the `children` list
(`JugglerTask.children`, populated by `build_hierarchical_tasks`). -/
inductive JugglerTask where
  | mk (core : TaskCore) (children : List JugglerTask)

def JugglerTask.core : JugglerTask → TaskCore
  | .mk c _ => c

def JugglerTask.children : JugglerTask → List JugglerTask
  | .mk _ cs => cs

def JugglerTask.key (t : JugglerTask) : String := t.core.key

def JugglerTask.effort (t : JugglerTask) : Option ℚ := t.core.effort

def JugglerTask.depends (t : JugglerTask) : List String := t.core.depends

/-- `JugglerTask.is_resolved`: the issue's status is one of
`('Approved', 'Resolved', 'Closed')` (loaded tasks always carry their
issue, so the `issue is not None` conjunct is identically true here). -/
def JugglerTask.is_resolved (t : JugglerTask) : Bool :=
  t.core.statusName == "Approved" || t.core.statusName == "Resolved" ||
    t.core.statusName == "Closed"

@[simp] theorem JugglerTask.core_mk (c : TaskCore) (cs : List JugglerTask) :
    (JugglerTask.mk c cs).core = c := rfl

@[simp] theorem JugglerTask.children_mk (c : TaskCore) (cs : List JugglerTask) :
    (JugglerTask.mk c cs).children = cs := rfl

/-- `JugglerTaskEffort.is_empty`: the property value is falsy (`None` or
`0`) or equals the class default (`DEFAULT_VALUE = MINIMAL_VALUE = 1/8`). -/
def effortIsEmpty : Option ℚ → Bool
  | none => true
  | some v => v == 0 || v == minimalEffort

/-! ## The issue records fed to the mapper -/

/-- One entry of `change.items` in the Jira changelog: a field change with
its `from`/`to` values and the display string `toString`. -/
structure ChangeItem where
  fieldName : String
  fromVal : Option String
  toVal : String
  toStr : String
  deriving DecidableEq, Repr

/-- One entry of `changelog.histories`: a creation stamp and its items. -/
structure ChangeHistory where
  created : Int
  items : List ChangeItem
  deriving DecidableEq, Repr

/-- The slice of a Jira issue the mapper reads.  `origEstimate` is
`none` when the `timeoriginalestimate` attribute is absent altogether and
`some none` when it is present but null, matching the source's
`hasattr` / `is not None` double branch. -/
structure JiraIssue where
  key : String
  summary : String
  statusName : String
  assignee : Option String
  origEstimate : Option (Option Int)
  remEstimate : Option Int
  timespent : Option Int
  parentKey : Option String
  epicKey : Option String
  issueTypeName : String
  histories : List ChangeHistory
  linkTargets : List String
  deriving DecidableEq, Repr

/-- Issue status names treated as closed by the effort/allocate mappers
(`('Closed', 'Resolved')`). -/
def issueIsClosed (i : JiraIssue) : Bool :=
  i.statusName == "Closed" || i.statusName == "Resolved"

/-- `JugglerTaskEffort.load_from_jira_issue`: the effort value (in days)
derived from an issue's estimates, logged time and status. -/
def effortLoad (i : JiraIssue) : ℚ :=
  match i.origEstimate with
  | none => minimalEffort
  | some none => 0
  | some (some est) =>
    let logged : Int := match i.timespent with
      | none => 0
      | some n => n
    if issueIsClosed i then
      if logged ≠ 0 then (logged : ℚ) / effortFactor else (est : ℚ) / effortFactor
    else
      match i.remEstimate with
      | none => (est : ℚ) / effortFactor
      | some r => if r ≠ 0 then (r : ℚ) / effortFactor else minimalEffort

/-- C4: effort preference order of `JugglerTaskEffort.load_from_jira_issue`:
with the original-estimate field present and non-null, a closed/resolved
issue with non-zero logged time maps to logged/28800, otherwise the
original estimate is used, except that an open issue with a present
remaining estimate maps to remaining/28800 when non-zero and to the 1/8
floor when zero; an issue without the original-estimate field maps to the
default 1/8; an issue with `timeoriginalestimate=8640` and no further
time data maps to effort 0.3. -/
theorem claim_C4_effort_preference (i : JiraIssue) :
    (∀ est, i.origEstimate = some (some est) →
      (issueIsClosed i = true →
        ((i.timespent.getD 0 ≠ 0 → effortLoad i = (i.timespent.getD 0 : ℚ) / 28800) ∧
         (i.timespent.getD 0 = 0 → effortLoad i = (est : ℚ) / 28800))) ∧
      (issueIsClosed i = false →
        ((i.remEstimate = none → effortLoad i = (est : ℚ) / 28800) ∧
         (∀ r, i.remEstimate = some r → r ≠ 0 → effortLoad i = (r : ℚ) / 28800) ∧
         (i.remEstimate = some 0 → effortLoad i = 1 / 8)))) ∧
    (i.origEstimate = none → effortLoad i = 1 / 8) ∧
    (i.origEstimate = some (some 8640) → i.timespent = none → i.remEstimate = none →
      effortLoad i = 3 / 10) := by
  refine ⟨?_, ?_, ?_⟩
  · intro est h
    constructor
    · intro hc
      constructor
      · intro hne
        simp only [effortLoad, h, hc, if_pos]
        cases hts : i.timespent with
        | none => simp [hts] at hne
        | some n =>
          simp only [hts, Option.getD_some] at hne ⊢
          simp [hne, effortFactor]
      · intro he
        simp only [effortLoad, h, hc, if_pos]
        cases hts : i.timespent with
        | none => simp [effortFactor]
        | some n =>
          simp only [hts, Option.getD_some] at he
          simp [he, effortFactor]
    · intro hc
      refine ⟨?_, ?_, ?_⟩
      · intro hr
        simp [effortLoad, h, hc, hr, effortFactor]
      · intro r hr hrne
        simp [effortLoad, h, hc, hr, hrne, effortFactor]
      · intro hr
        simp [effortLoad, h, hc, hr, minimalEffort_eq]
  · intro h
    simp [effortLoad, h, minimalEffort_eq]
  · intro h hts hr
    cases hc : issueIsClosed i with
    | true => simp [effortLoad, h, hts, hc, effortFactor]; norm_num
    | false => simp [effortLoad, h, hts, hr, hc, effortFactor]; norm_num

/-- Witness for C4 at a concrete issue: `timeoriginalestimate = 8640`,
open status, no logged time, no remaining estimate gives effort `0.3`. -/
theorem claim_C4_witness :
    effortLoad { key := "T-1", summary := "t", statusName := "Open",
                 assignee := none, origEstimate := some (some 8640),
                 remEstimate := none, timespent := none, parentKey := none,
                 epicKey := none, issueTypeName := "Task", histories := [],
                 linkTargets := [] }
      = 3 / 10 :=
  (claim_C4_effort_preference _).2.2 rfl rfl rfl

/-! ## Stable sorting (Python's `sorted`/`list.sort`)

Python's sort is stable and is driven purely by strictly-less tests of the
key objects.  For a comparator whose strictly-less relation is a strict
weak order, every stable sort produces the same list, so a stable
insertion sort is a faithful model of it. -/

def orderedInsertB (le : α → α → Bool) (a : α) : List α → List α
  | [] => [a]
  | b :: l => if le a b then a :: b :: l else b :: orderedInsertB le a l

def insertionSortB (le : α → α → Bool) : List α → List α
  | [] => []
  | a :: l => orderedInsertB le a (insertionSortB le l)

theorem perm_orderedInsertB (le : α → α → Bool) (a : α) :
    ∀ l : List α, List.Perm (orderedInsertB le a l) (a :: l)
  | [] => List.Perm.refl _
  | b :: l => by
    simp only [orderedInsertB]
    split
    · exact List.Perm.refl _
    · exact (List.Perm.cons b (perm_orderedInsertB le a l)).trans
        (List.Perm.swap a b l)

theorem perm_insertionSortB (le : α → α → Bool) :
    ∀ l : List α, List.Perm (insertionSortB le l) l
  | [] => List.Perm.refl _
  | a :: l =>
    (perm_orderedInsertB le a (insertionSortB le l)).trans
      (List.Perm.cons a (perm_insertionSortB le l))

theorem mem_insertionSortB (le : α → α → Bool) (l : List α) (x : α) :
    x ∈ insertionSortB le l ↔ x ∈ l :=
  (perm_insertionSortB le l).mem_iff

/-- `sorted(histories, key=attrgetter('created'), reverse=True)`: stable
descending order on the creation stamp. -/
def sortHistoriesDesc (hs : List ChangeHistory) : List ChangeHistory :=
  insertionSortB (fun a b => decide (b.created ≤ a.created)) hs

/-! ## The allocate (assignee) mapper -/

/-- `JugglerTaskAllocate.DEFAULT_VALUE`: the literal `"not assigned"`
placeholder (the quotes are part of the value). -/
def allocDefaultStr : String := "\"not assigned\""

/-- `JugglerTaskProperty.is_empty` for the allocate property: falsy value
or the class default. -/
def allocIsEmpty (v : Option String) : Bool :=
  !optTruthy v || v == some allocDefaultStr

/-- The update the scan performs at an `assignee` item seen while
`before_resolved` is still false: `self.value = getattr(item, 'from',
None); if self.value: self.value = to_username(self.value)`. -/
def assigneeFromUpdate (resolve : String → String) (it : ChangeItem) :
    Option String :=
  match it.fromVal with
  | none => none
  | some s => if s = "" then some "" else some (resolve s)

/-- An `assignee` field-change item. -/
def isAssigneeItem (it : ChangeItem) : Bool :=
  strLower it.fieldName == "assignee"

/-- A `status` change item whose target state is approved/resolved. -/
def isApproveItem (it : ChangeItem) : Bool :=
  strLower it.fieldName == "status" &&
    (strLower it.toStr == "approved" || strLower it.toStr == "resolved")

/-- The changelog scan of `JugglerTaskAllocate.load_from_jira_issue`
(the doubly-nested `for` over histories and items with its two early
returns), flattened over the item list.  `br` is `before_resolved`,
`v` the property value so far; `resolve` stands for `to_username`.  The
Boolean of the result records whether the scan exited through one of the
`return` statements (in which case the `is_empty` fallback of the method
is skipped). -/
def allocLoop (resolve : String → String) :
    List ChangeItem → Bool → Option String → Bool × Option String
  | [], _, v => (false, v)
  | it :: rest, br, v =>
    if isAssigneeItem it then
      if br then (true, some (resolve it.toVal))
      else allocLoop resolve rest br (assigneeFromUpdate resolve it)
    else if isApproveItem it then
      if optTruthy v && v != some allocDefaultStr then (true, v)
      else allocLoop resolve rest true v
    else allocLoop resolve rest br v

/-- `JugglerTaskAllocate.load_from_jira_issue`: history scan for
closed/resolved issues, then — unless the scan returned early — the
current-assignee/placeholder fallback when the value is still empty. -/
def allocateLoad (resolve : String → String) (i : JiraIssue) : Option String :=
  match
    (if issueIsClosed i then
      allocLoop resolve ((sortHistoriesDesc i.histories).flatMap (·.items))
        false (some allocDefaultStr)
    else (false, some allocDefaultStr)) with
  | (true, v) => v
  | (false, v) =>
    if allocIsEmpty v then
      match i.assignee with
      | some a => if a ≠ "" then some (resolve a) else some allocDefaultStr
      | none => some allocDefaultStr
    else v

/-! ## Resolution date -/

/-- The scan of `JugglerTask.determine_resolved_at_date` over the
(descending-sorted, flattened) `(created, item)` pairs; `fb` is the
`closed_at_date` fallback. -/
def resolvedScan : List (Int × ChangeItem) → Option Int → Option Int
  | [], fb => fb
  | (c, it) :: rest, fb =>
    if strLower it.fieldName == "status" then
      if strLower it.toStr == "approved" || strLower it.toStr == "resolved" then
        some c
      else if strLower it.toStr == "closed" && fb == none then
        resolvedScan rest (some c)
      else resolvedScan rest fb
    else resolvedScan rest fb

/-- `JugglerTask.determine_resolved_at_date`. -/
def determineResolvedAtDate (i : JiraIssue) : Option Int :=
  resolvedScan
    ((sortHistoriesDesc i.histories).flatMap
      (fun h => h.items.map (fun it => (h.created, it)))) none

/-! ## Summary loading and escaping -/

/-- The quote escaping `summary.replace('\\"', '\\\\\\"')` (each `"` becomes
`\\"`), character-wise on the data list. -/
def escapeQuotes (s : String) : String :=
  ⟨s.data.flatMap (fun c => if c = '"' then ['\\', '"'] else [c])⟩

/-- The summary stored on a loaded task: the quote-escaped title,
truncated at `MAX_SUMMARY_LENGTH = 70` characters of the *escaped* text
with `'...'` appended when that length is exceeded
(`(summary[:70] + '...') if len(summary) > 70 else summary`). -/
def summaryFromTitle (title : String) : String :=
  let sd := (escapeQuotes title).data
  if sd.length > 70 then ⟨sd.take 70 ++ "...".data⟩ else ⟨sd⟩

/-! ## Loading a whole task -/

/-- `JugglerTaskDepends.append_value`: append only when absent. -/
def appendValue (l : List String) (v : String) : List String :=
  if v ∈ l then l else l ++ [v]

/-- `JugglerTaskDepends.load_from_jira_issue`: `linkTargets` stands for
the keys of the linked issues whose link type is in the accepted set (the
issue-link/type plumbing is interface boundary, not claimed logic). -/
def dependsLoad (i : JiraIssue) : List String :=
  i.linkTargets.foldl (fun acc k => appendValue acc (to_identifier k)) []

/-- `JugglerTask.load_from_jira_issue` assembling a leaf task from one
issue (`resolve` stands for the `to_username` lookup). -/
def JugglerTask.load (resolve : String → String) (i : JiraIssue) : JugglerTask :=
  .mk
    { key := i.key
      summary := summaryFromTitle i.summary
      statusName := i.statusName
      allocate := allocateLoad resolve i
      effort := some (effortLoad i)
      depends := dependsLoad i
      timeName := "property name"
      timeValue := .lit ""
      origEstimate := i.origEstimate
      remEstimate := i.remEstimate
      timespent := i.timespent
      parentKey := i.parentKey
      epicKey := i.epicKey
      isEpic := strLower i.issueTypeName == "epic"
      resolvedAtDate :=
        if i.statusName == "Approved" || i.statusName == "Resolved" ||
            i.statusName == "Closed" then
          determineResolvedAtDate i
        else none }
    []

/-! ## Status comparison -/

/-- `JiraJuggler.compare_status`; comparing two resolved tasks reads
`resolved_at_date` unguarded, which in Python raises `TypeError` when one
of the dates is `None` — modelled as `Except.error`. -/
def compare_status (a b : JugglerTask) : Except String Int :=
  if a.is_resolved && !b.is_resolved then .ok (-1)
  else if b.is_resolved && !a.is_resolved then .ok 1
  else if a.is_resolved && b.is_resolved then
    match a.core.resolvedAtDate, b.core.resolvedAtDate with
    | some x, some y => .ok (if x < y then -1 else 1)
    | _, _ => .error "TypeError: '<' not supported for NoneType"
  else .ok 0

theorem resolvedScan_no_status :
    ∀ (l : List (Int × ChangeItem)) (fb : Option Int),
      (∀ p ∈ l, strLower p.2.fieldName = "status" →
        strLower p.2.toStr ≠ "approved" ∧ strLower p.2.toStr ≠ "resolved" ∧
          strLower p.2.toStr ≠ "closed") →
      resolvedScan l fb = fb
  | [], _, _ => rfl
  | (c, it) :: rest, fb, h => by
    have hrest : ∀ p ∈ rest, strLower p.2.fieldName = "status" →
        strLower p.2.toStr ≠ "approved" ∧ strLower p.2.toStr ≠ "resolved" ∧
          strLower p.2.toStr ≠ "closed" :=
      fun p hp => h p (List.mem_cons_of_mem _ hp)
    by_cases hs : strLower it.fieldName = "status"
    · obtain ⟨h1, h2, h3⟩ := h (c, it) (List.mem_cons_self _ _) hs
      simp only [resolvedScan, hs]
      simp only [beq_self_eq_true, if_true]
      rw [if_neg (by simp [h1, h2]), if_neg (by simp [h3])]
      exact resolvedScan_no_status rest fb hrest
    · simp only [resolvedScan]
      rw [if_neg (by simpa using hs)]
      exact resolvedScan_no_status rest fb hrest

/-- C10: a task whose issue status is Approved/Resolved/Closed but whose
change history contains no status transition to an approved, resolved or
closed state is `is_resolved` with `resolved_at_date = None`, and the
two-resolved branch of `compare_status` fails (raises) whenever either
resolution date is `None`. -/
theorem claim_C10_resolved_without_date (resolve : String → String)
    (i : JiraIssue)
    (hstat : i.statusName = "Approved" ∨ i.statusName = "Resolved" ∨
      i.statusName = "Closed")
    (hhist : ∀ h ∈ i.histories, ∀ it ∈ h.items,
      strLower it.fieldName = "status" →
        strLower it.toStr ≠ "approved" ∧ strLower it.toStr ≠ "resolved" ∧
          strLower it.toStr ≠ "closed") :
    (JugglerTask.load resolve i).is_resolved = true ∧
    (JugglerTask.load resolve i).core.resolvedAtDate = none ∧
    (∀ a b : JugglerTask, a.is_resolved = true → b.is_resolved = true →
      (a.core.resolvedAtDate = none ∨ b.core.resolvedAtDate = none) →
      ∃ e, compare_status a b = .error e) := by
  have hres : (JugglerTask.load resolve i).is_resolved = true := by
    simp only [JugglerTask.is_resolved, JugglerTask.load, JugglerTask.core_mk]
    rcases hstat with h | h | h <;> simp [h]
  refine ⟨hres, ?_, ?_⟩
  · simp only [JugglerTask.load, JugglerTask.core_mk]
    have hb : (i.statusName == "Approved" || i.statusName == "Resolved" ||
        i.statusName == "Closed") = true := by
      rcases hstat with h | h | h <;> simp [h]
    rw [if_pos hb]
    apply resolvedScan_no_status
    intro p hp hfield
    rw [List.mem_flatMap] at hp
    obtain ⟨h, hh, hp⟩ := hp
    rw [List.mem_map] at hp
    obtain ⟨it, hit, rfl⟩ := hp
    exact hhist h ((mem_insertionSortB _ _ _).mp hh) it hit hfield
  · intro a b ha hb hnone
    simp only [compare_status, ha, hb, Bool.not_true, Bool.and_false,
      Bool.false_and, Bool.and_self, if_false, if_true]
    rcases hnone with h | h <;> rw [h]
    · exact ⟨_, rfl⟩
    · cases a.core.resolvedAtDate <;> exact ⟨_, rfl⟩

/-- Witness for C10: an Approved issue with an empty changelog is resolved
with no resolution date, and comparing it against itself fails. -/
theorem claim_C10_witness :
    (JugglerTask.load id
        { key := "T-2", summary := "t", statusName := "Approved",
          assignee := none, origEstimate := none, remEstimate := none,
          timespent := none, parentKey := none, epicKey := none,
          issueTypeName := "Task", histories := [],
          linkTargets := [] }).is_resolved = true ∧
    (JugglerTask.load id
        { key := "T-2", summary := "t", statusName := "Approved",
          assignee := none, origEstimate := none, remEstimate := none,
          timespent := none, parentKey := none, epicKey := none,
          issueTypeName := "Task", histories := [],
          linkTargets := [] }).core.resolvedAtDate = none ∧
    ∃ e, compare_status
        (JugglerTask.load id
          { key := "T-2", summary := "t", statusName := "Approved",
            assignee := none, origEstimate := none, remEstimate := none,
            timespent := none, parentKey := none, epicKey := none,
            issueTypeName := "Task", histories := [],
            linkTargets := [] })
        (JugglerTask.load id
          { key := "T-2", summary := "t", statusName := "Approved",
            assignee := none, origEstimate := none, remEstimate := none,
            timespent := none, parentKey := none, epicKey := none,
            issueTypeName := "Task", histories := [],
            linkTargets := [] }) = .error e := by
  obtain ⟨h1, h2, h3⟩ := claim_C10_resolved_without_date id
    { key := "T-2", summary := "t", statusName := "Approved",
      assignee := none, origEstimate := none, remEstimate := none,
      timespent := none, parentKey := none, epicKey := none,
      issueTypeName := "Task", histories := [], linkTargets := [] }
    (Or.inl rfl) (by intro h hh; simp at hh)
  exact ⟨h1, h2, h3 _ _ h1 h1 (Or.inl h2)⟩

/-! ## The status sort (C8) -/

/-- The strictly-less driver Python's sort extracts from
`cmp_to_key(compare_status)`: `x` may stay before `y` unless
`compare_status(y, x) < 0` (an errored comparison would abort the Python
sort; the `true` arm is never reached when all resolved tasks carry a
resolution date). -/
def leStatus (a b : JugglerTask) : Bool :=
  match compare_status b a with
  | .ok v => v != -1
  | .error _ => true

/-- `tasks.sort(key=cmp_to_key(self.compare_status))`. -/
def sortOnStatus (l : List JugglerTask) : List JugglerTask :=
  insertionSortB leStatus l

theorem compare_status_eq_neg_one (a b : JugglerTask) :
    compare_status a b = .ok (-1) ↔
      (a.is_resolved = true ∧ b.is_resolved = false) ∨
      (a.is_resolved = true ∧ b.is_resolved = true ∧
        ∃ x y, a.core.resolvedAtDate = some x ∧
          b.core.resolvedAtDate = some y ∧ x < y) := by
  unfold compare_status
  cases ha : a.is_resolved <;> cases hb : b.is_resolved <;> simp [ha, hb]
  cases hda : a.core.resolvedAtDate <;> cases hdb : b.core.resolvedAtDate <;>
    simp [hda, hdb]

theorem leStatus_iff (a b : JugglerTask) :
    leStatus a b = true ↔ ¬ compare_status b a = .ok (-1) := by
  unfold leStatus
  cases h : compare_status b a with
  | ok v => simp [h]
  | error e => simp [h]

theorem leStatus_total (a b : JugglerTask) :
    leStatus a b = true ∨ leStatus b a = true := by
  by_cases hba : compare_status b a = .ok (-1)
  · right
    rw [leStatus_iff]
    intro hab
    rw [compare_status_eq_neg_one] at hba hab
    rcases hba with ⟨hb1, ha1⟩ | ⟨hb1, ha1, x, y, hdx, hdy, hxy⟩ <;>
      rcases hab with ⟨ha2, hb2⟩ | ⟨ha2, hb2, u, v, hdu, hdv, huv⟩
    · rw [ha1] at ha2; exact absurd ha2 (by simp)
    · rw [ha1] at ha2; exact absurd ha2 (by simp)
    · rw [hb2] at hb1; exact absurd hb1 (by simp)
    · rw [hdx] at hdv
      rw [hdy] at hdu
      injection hdv with hdv
      injection hdu with hdu
      subst hdv; subst hdu
      exact absurd huv (by omega)
  · left; exact (leStatus_iff a b).mpr hba

theorem leStatus_trans (a b c : JugglerTask)
    (hbd : b.is_resolved = true → b.core.resolvedAtDate ≠ none)
    (hab : leStatus a b = true) (hbc : leStatus b c = true) :
    leStatus a c = true := by
  rw [leStatus_iff] at hab hbc ⊢
  rw [compare_status_eq_neg_one] at hab hbc ⊢
  intro hca
  rcases hca with ⟨hc, ha⟩ | ⟨hc, ha, x, y, hdx, hdy, hxy⟩
  · cases hbres : b.is_resolved with
    | false => exact hbc (Or.inl ⟨hc, hbres⟩)
    | true => exact hab (Or.inl ⟨hbres, ha⟩)
  · cases hbres : b.is_resolved with
    | false => exact hbc (Or.inl ⟨hc, hbres⟩)
    | true =>
      obtain ⟨db, hdb⟩ := Option.ne_none_iff_exists'.mp (hbd hbres)
      by_cases hcb : x < db
      · exact hbc (Or.inr ⟨hc, hbres, x, db, hdx, hdb, hcb⟩)
      · have hba : db < y := by omega
        exact hab (Or.inr ⟨hbres, ha, db, y, hdb, hdy, hba⟩)

theorem mem_orderedInsertB (le : α → α → Bool) (a : α) (l : List α) (x : α) :
    x ∈ orderedInsertB le a l ↔ x = a ∨ x ∈ l := by
  have h := (perm_orderedInsertB le a l).mem_iff (a := x)
  simpa using h

theorem pairwise_orderedInsertB (le : α → α → Bool) (a : α) :
    ∀ l : List α,
      (∀ x y, le x y = true ∨ le y x = true) →
      (∀ x y z, x ∈ a :: l → y ∈ a :: l → z ∈ a :: l →
        le x y = true → le y z = true → le x z = true) →
      l.Pairwise (fun x y => le x y = true) →
      (orderedInsertB le a l).Pairwise (fun x y => le x y = true)
  | [], _, _, _ => by simp [orderedInsertB]
  | b :: l, htot, htrans, hp => by
    rw [List.pairwise_cons] at hp
    obtain ⟨hbl, hpl⟩ := hp
    simp only [orderedInsertB]
    split
    · rename_i hle
      rw [List.pairwise_cons]
      refine ⟨?_, List.pairwise_cons.mpr ⟨hbl, hpl⟩⟩
      intro y hy
      rcases List.mem_cons.mp hy with rfl | hyl
      · exact hle
      · exact htrans a b y (by simp) (by simp) (by simp [hyl]) hle (hbl y hyl)
    · rename_i hnle
      rw [List.pairwise_cons]
      constructor
      · intro y hy
        rcases (mem_orderedInsertB le a l y).mp hy with rfl | hyl
        · rcases htot y b with h | h
          · exact absurd h (by simpa using hnle)
          · exact h
        · exact hbl y hyl
      · have hsub2 : ∀ w, w ∈ a :: l → w ∈ a :: b :: l := by
          intro w hw
          rcases List.mem_cons.mp hw with rfl | h
          · exact List.mem_cons_self _ _
          · exact List.mem_cons_of_mem _ (List.mem_cons_of_mem _ h)
        exact pairwise_orderedInsertB le a l htot
          (fun x y z hx hy hz => htrans x y z (hsub2 x hx) (hsub2 y hy) (hsub2 z hz))
          hpl

theorem pairwise_insertionSortB (le : α → α → Bool) :
    ∀ l : List α,
      (∀ x y, le x y = true ∨ le y x = true) →
      (∀ x y z, x ∈ l → y ∈ l → z ∈ l →
        le x y = true → le y z = true → le x z = true) →
      (insertionSortB le l).Pairwise (fun x y => le x y = true)
  | [], _, _ => by simp [insertionSortB]
  | a :: l, htot, htrans => by
    simp only [insertionSortB]
    apply pairwise_orderedInsertB le a (insertionSortB le l) htot
    · intro x y z hx hy hz
      have hsub : ∀ w, w ∈ a :: insertionSortB le l → w ∈ a :: l := by
        intro w hw
        rcases List.mem_cons.mp hw with rfl | hw
        · simp
        · exact List.mem_cons_of_mem _ ((mem_insertionSortB le l w).mp hw)
      exact htrans x y z (hsub x hx) (hsub y hy) (hsub z hz)
    · exact pairwise_insertionSortB le l htot
        (fun x y z hx hy hz => htrans x y z (List.mem_cons_of_mem _ hx)
          (List.mem_cons_of_mem _ hy) (List.mem_cons_of_mem _ hz))

theorem leStatus_of_unresolved (a b : JugglerTask) (ha : a.is_resolved = false) :
    leStatus a b = !b.is_resolved := by
  cases hb : b.is_resolved
  · simp only [Bool.not_false]
    rw [leStatus_iff, compare_status_eq_neg_one]
    rintro (⟨h1, _⟩ | ⟨h1, _, _⟩)
    · rw [hb] at h1; exact absurd h1 (by simp)
    · rw [hb] at h1; exact absurd h1 (by simp)
  · simp only [Bool.not_true]
    rw [← Bool.not_eq_true, leStatus_iff, not_not, compare_status_eq_neg_one]
    exact Or.inl ⟨hb, ha⟩

theorem filter_orderedInsertB_unres (a : JugglerTask) (ha : a.is_resolved = false) :
    ∀ l, (orderedInsertB leStatus a l).filter (fun t => !t.is_resolved)
      = a :: l.filter (fun t => !t.is_resolved)
  | [] => by simp [orderedInsertB, List.filter_cons, ha]
  | b :: l => by
    simp only [orderedInsertB]
    rw [leStatus_of_unresolved a b ha]
    cases hb : b.is_resolved
    · simp [List.filter_cons, ha, hb]
    · simp only [Bool.not_true, if_neg (by simp : ¬ (false = true))]
      simp [List.filter_cons, hb, filter_orderedInsertB_unres a ha l]

theorem filter_orderedInsertB_res (a : JugglerTask) (ha : a.is_resolved = true) :
    ∀ l, (orderedInsertB leStatus a l).filter (fun t => !t.is_resolved)
      = l.filter (fun t => !t.is_resolved)
  | [] => by simp [orderedInsertB, List.filter_cons, ha]
  | b :: l => by
    simp only [orderedInsertB]
    by_cases hle : leStatus a b = true
    · rw [if_pos hle]
      simp [List.filter_cons, ha]
    · rw [if_neg hle]
      simp [List.filter_cons, filter_orderedInsertB_res a ha l]

theorem filter_insertionSortB_unres :
    ∀ l : List JugglerTask,
      (insertionSortB leStatus l).filter (fun t => !t.is_resolved)
        = l.filter (fun t => !t.is_resolved)
  | [] => rfl
  | a :: l => by
    simp only [insertionSortB]
    cases ha : a.is_resolved
    · rw [filter_orderedInsertB_unres a ha, filter_insertionSortB_unres l]
      simp [List.filter_cons, ha]
    · rw [filter_orderedInsertB_res a ha, filter_insertionSortB_unres l]
      simp [List.filter_cons, ha]

/-- C8: the status sort keeps exactly the input tasks; in the result no
unresolved task precedes a resolved one, among resolved tasks a strictly
earlier resolution date never follows a later one, and the unresolved
tasks keep their relative input order (assuming every resolved task has a
resolution date — otherwise the Python comparison raises, cf. C10). -/
theorem claim_C8_status_sort (tasks : List JugglerTask)
    (hdate : ∀ t ∈ tasks, t.is_resolved = true → t.core.resolvedAtDate ≠ none) :
    List.Perm (sortOnStatus tasks) tasks ∧
    (sortOnStatus tasks).Pairwise (fun x y =>
      (y.is_resolved = true → x.is_resolved = true) ∧
      (x.is_resolved = true → y.is_resolved = true →
        ∀ dx dy, x.core.resolvedAtDate = some dx →
          y.core.resolvedAtDate = some dy → ¬ dy < dx)) ∧
    (sortOnStatus tasks).filter (fun t => !t.is_resolved)
      = tasks.filter (fun t => !t.is_resolved) := by
  refine ⟨perm_insertionSortB _ _, ?_, filter_insertionSortB_unres tasks⟩
  have hp := pairwise_insertionSortB leStatus tasks leStatus_total
    (fun x y z _ hy _ hxy hyz => leStatus_trans x y z (hdate y hy) hxy hyz)
  refine hp.imp ?_
  intro x y hle
  constructor
  · intro hyres
    by_contra hxres
    rw [Bool.not_eq_true] at hxres
    exact (leStatus_iff x y).mp hle
      ((compare_status_eq_neg_one y x).mpr (Or.inl ⟨hyres, hxres⟩))
  · intro hx hy dx dy hdx hdy hlt
    exact (leStatus_iff x y).mp hle
      ((compare_status_eq_neg_one y x).mpr
        (Or.inr ⟨hy, hx, dy, dx, hdy, hdx, hlt⟩))

/-- A neutral task core used to build concrete witnesses. -/
def baseCore : TaskCore :=
  { key := "K-0", summary := "s", statusName := "Open", allocate := some "u",
    effort := some 1, depends := [], timeName := "property name",
    timeValue := .lit "", origEstimate := none, remEstimate := none,
    timespent := none, parentKey := none, epicKey := none, isEpic := false,
    resolvedAtDate := none }

/-- Unresolved sample task used by the C8 witness. -/
def taskA8 : JugglerTask := JugglerTask.mk { baseCore with key := "A" } []

/-- Resolved sample task used by the C8 witness. -/
def taskR8 : JugglerTask :=
  JugglerTask.mk
    { baseCore with key := "R", statusName := "Resolved", resolvedAtDate := some 5 } []

/-- Witness for C8: an unresolved task followed by a resolved one. -/
theorem claim_C8_witness :
    List.Perm (sortOnStatus [taskA8, taskR8]) [taskA8, taskR8] ∧
    (sortOnStatus [taskA8, taskR8]).Pairwise (fun x y =>
      (y.is_resolved = true → x.is_resolved = true) ∧
      (x.is_resolved = true → y.is_resolved = true →
        ∀ dx dy, x.core.resolvedAtDate = some dx →
          y.core.resolvedAtDate = some dy → ¬ dy < dx)) ∧
    (sortOnStatus [taskA8, taskR8]).filter (fun t => !t.is_resolved)
      = [taskA8, taskR8].filter (fun t => !t.is_resolved) :=
  claim_C8_status_sort [taskA8, taskR8] (by
    intro t ht hres
    rcases List.mem_cons.mp ht with rfl | ht
    · exact absurd hres (by decide)
    · rcases List.mem_cons.mp ht with rfl | ht
      · decide
      · exact absurd ht (by simp))


/-! ## The allocate selection logic (C5) -/

theorem isAssigneeItem_eq_false_of_approve (it : ChangeItem)
    (h : isApproveItem it = true) : isAssigneeItem it = false := by
  have h1 : strLower it.fieldName = "status" := by
    by_contra hne
    unfold isApproveItem at h
    rw [Bool.and_eq_true] at h
    exact hne (by simpa using h.1)
  simp [isAssigneeItem, h1]

/-- The value the allocate scan holds after a run of items containing no
approved/resolved transition, started from the class default: the
`from`-side of the last assignee change of the run (the run being in
reverse-chronological order, that is the earliest assignee change after
the transition), or the default when the run has no assignee change. -/
def scanAVal (resolve : String → String) (A : List ChangeItem) : Option String :=
  match (A.filter isAssigneeItem).getLast? with
  | none => some allocDefaultStr
  | some it => assigneeFromUpdate resolve it

theorem allocLoop_append_noApprove (resolve : String → String) :
    ∀ (A l : List ChangeItem) (v : Option String),
      (∀ it ∈ A, isApproveItem it = false) →
      allocLoop resolve (A ++ l) false v
        = allocLoop resolve l false
            (A.foldl
              (fun w it =>
                if isAssigneeItem it then assigneeFromUpdate resolve it else w)
              v)
  | [], l, v, _ => rfl
  | it :: A, l, v, h => by
    have hit : isApproveItem it = false := h it (List.mem_cons_self _ _)
    have hrest : ∀ x ∈ A, isApproveItem x = false :=
      fun x hx => h x (List.mem_cons_of_mem _ hx)
    simp only [List.cons_append, allocLoop, List.foldl_cons]
    cases ha : isAssigneeItem it with
    | true =>
      simp only [ha, if_true]
      exact allocLoop_append_noApprove resolve A l _ hrest
    | false =>
      simp only [ha, hit, Bool.false_eq_true, if_false]
      exact allocLoop_append_noApprove resolve A l v hrest

theorem scanFold_getLast (resolve : String → String) :
    ∀ (A : List ChangeItem) (v : Option String),
      A.foldl
        (fun w it =>
          if isAssigneeItem it then assigneeFromUpdate resolve it else w) v
        = match (A.filter isAssigneeItem).getLast? with
          | none => v
          | some it => assigneeFromUpdate resolve it
  | [], v => rfl
  | it :: A, v => by
    simp only [List.foldl_cons, List.filter_cons]
    cases ha : isAssigneeItem it with
    | true =>
      simp only [ha, if_true, scanFold_getLast resolve A]
      cases hf : A.filter isAssigneeItem with
      | nil => simp
      | cons b bs =>
        rw [List.getLast?_cons_cons]
        cases hg : (b :: bs).getLast? with
        | none => simp at hg
        | some x => rfl
    | false =>
      simp only [ha, Bool.false_eq_true, if_false]
      exact scanFold_getLast resolve A v

theorem allocLoop_after_transition (resolve : String → String) :
    ∀ (B : List ChangeItem) (v : Option String),
      (optTruthy v && v != some allocDefaultStr) = false →
      allocLoop resolve B true v
        = match B.find? isAssigneeItem with
          | some it => (true, some (resolve it.toVal))
          | none => (false, v)
  | [], v, _ => rfl
  | it :: B, v, h => by
    simp only [allocLoop]
    cases ha : isAssigneeItem it with
    | true =>
      rw [List.find?_cons_of_pos _ ha]
      simp [ha]
    | false =>
      rw [List.find?_cons_of_neg _ (by simp [ha])]
      simp only [ha, Bool.false_eq_true, if_false]
      cases hap : isApproveItem it with
      | true =>
        simp only [hap, if_true, h, Bool.false_eq_true, if_false]
        exact allocLoop_after_transition resolve B v h
      | false =>
        simp only [hap, Bool.false_eq_true, if_false]
        exact allocLoop_after_transition resolve B v h

/-- C5 (amended): for a closed/resolved issue whose reverse-chronological
item stream splits as `A ++ st :: B` with `st` the most recent transition
to approved/resolved (`A` holds no such transition), the allocate value is
the `from`-side of the last assignee change in `A` (the assignee active at
the transition, read off the earliest reassignment made after it) when
that value is a usable name; otherwise the `to`-side of the first assignee
change in `B` (the most recent assignee change before the transition);
otherwise the current assignee, or the `"not assigned"` placeholder.  In
particular a reassignment after the final transition (an entry of `A`)
determines the result through its previous value, never through the
issue's current assignee. -/
theorem claim_C5_allocate_selection (resolve : String → String) (i : JiraIssue)
    (hclosed : issueIsClosed i = true)
    (A B : List ChangeItem) (st : ChangeItem)
    (hsplit : (sortHistoriesDesc i.histories).flatMap (·.items) = A ++ st :: B)
    (hA : ∀ it ∈ A, isApproveItem it = false)
    (hst : isApproveItem st = true) :
    allocateLoad resolve i =
      if optTruthy (scanAVal resolve A) &&
          scanAVal resolve A != some allocDefaultStr then
        scanAVal resolve A
      else
        match B.find? isAssigneeItem with
        | some it => some (resolve it.toVal)
        | none =>
          match i.assignee with
          | some a => if a ≠ "" then some (resolve a) else some allocDefaultStr
          | none => some allocDefaultStr := by
  have hv : (match (A.filter isAssigneeItem).getLast? with
      | none => some allocDefaultStr
      | some it => assigneeFromUpdate resolve it) = scanAVal resolve A := rfl
  have hstep : allocLoop resolve (st :: B) false (scanAVal resolve A)
      = if optTruthy (scanAVal resolve A) &&
            scanAVal resolve A != some allocDefaultStr then
          (true, scanAVal resolve A)
        else allocLoop resolve B true (scanAVal resolve A) := by
    simp only [allocLoop, isAssigneeItem_eq_false_of_approve st hst, hst,
      Bool.false_eq_true, if_false, if_true]
  unfold allocateLoad
  rw [if_pos hclosed, hsplit,
    allocLoop_append_noApprove resolve A (st :: B) _ hA,
    scanFold_getLast resolve A _, hv, hstep]
  cases hch : (optTruthy (scanAVal resolve A) &&
      scanAVal resolve A != some allocDefaultStr) with
  | true => simp
  | false =>
    rw [if_neg (by simp [hch]), if_neg (by simp [hch]),
      allocLoop_after_transition resolve B _ hch]
    cases hfind : B.find? isAssigneeItem with
    | some it => rfl
    | none =>
      have hempty : allocIsEmpty (scanAVal resolve A) = true := by
        cases hopt : optTruthy (scanAVal resolve A) with
        | false => simp [allocIsEmpty, hopt]
        | true =>
          rw [hopt, Bool.true_and] at hch
          rw [bne_eq_false_iff_eq] at hch
          simp [allocIsEmpty, hch]
      simp only [hempty, if_true]

/-- Modelled from the claim's words, for comparison with the source
behaviour (it is not a translation of the source): the allocate value of a
closed/resolved issue is obtained by scanning the change history in
reverse-chronological order for the most recent assignee change occurring
before (chronologically earlier than) the most recent approved/resolved
status transition — the first assignee item following the transition item
in the descending stream, taken by its `to`-side; if no such assignee
change is found the current assignee of the issue is used, and if that is
also unset the fixed placeholder. -/
def claimAllocate (resolve : String → String) (i : JiraIssue) : Option String :=
  let fb : Option String :=
    match i.assignee with
    | some a => if a ≠ "" then some (resolve a) else some allocDefaultStr
    | none => some allocDefaultStr
  if issueIsClosed i then
    let items := (sortHistoriesDesc i.histories).flatMap (·.items)
    match ((items.dropWhile (fun it => !isApproveItem it)).drop 1).find?
        isAssigneeItem with
    | some it => some (resolve it.toVal)
    | none => fb
  else fb

/-- Issue refuting C5 as stated: resolved at stamp 1 while the assignee
was `x`; reassigned from `x` to `y` at stamp 2 (current assignee `y`).
There is no assignee-change item chronologically before the transition
(the assignee had been set at issue creation, which Jira does not record
as a changelog entry). -/
def issueC5 : JiraIssue :=
  { key := "C-5", summary := "s", statusName := "Resolved",
    assignee := some "y", origEstimate := none, remEstimate := none,
    timespent := none, parentKey := none, epicKey := none,
    issueTypeName := "Task",
    histories :=
      [ { created := 1,
          items := [{ fieldName := "status", fromVal := some "Open",
                      toVal := "5", toStr := "Resolved" }] },
        { created := 2,
          items := [{ fieldName := "assignee", fromVal := some "x",
                      toVal := "y", toStr := "y" }] } ],
    linkTargets := [] }

/-- Counterexample to C5 as stated: on `issueC5` the source selects the
`from`-side of the post-transition reassignment (`x`, the assignee active
at the transition), while the claim's rule — no assignee change before
the transition, hence the current assignee — yields `y`. -/
theorem claim_C5_counterexample :
    allocateLoad id issueC5 = some "x" ∧
    claimAllocate id issueC5 = some "y" ∧
    allocateLoad id issueC5 ≠ claimAllocate id issueC5 := by
  refine ⟨rfl, rfl, ?_⟩
  rw [show allocateLoad id issueC5 = some "x" from rfl,
    show claimAllocate id issueC5 = some "y" from rfl]
  simp

/-- Assignee reassignment after the transition (C5 witness data). -/
def itemAssignW5a : ChangeItem :=
  { fieldName := "assignee", fromVal := some "x", toVal := "y", toStr := "y" }

/-- The approved/resolved transition item (C5 witness data). -/
def itemStatusW5 : ChangeItem :=
  { fieldName := "status", fromVal := none, toVal := "5", toStr := "Resolved" }

/-- Assignee change before the transition (C5 witness data). -/
def itemAssignW5b : ChangeItem :=
  { fieldName := "assignee", fromVal := none, toVal := "x", toStr := "x" }

/-- Resolved issue whose history sets assignee to `x`, resolves, then
reassigns `x` to `y` (C5 witness data). -/
def issueW5 : JiraIssue :=
  { key := "W-5", summary := "s", statusName := "Resolved",
    assignee := some "y", origEstimate := none, remEstimate := none,
    timespent := none, parentKey := none, epicKey := none,
    issueTypeName := "Task",
    histories :=
      [ { created := 3, items := [itemAssignW5a] },
        { created := 2, items := [itemStatusW5] },
        { created := 1, items := [itemAssignW5b] } ],
    linkTargets := [] }

/-- Witness for the amended C5: the selection theorem applied to
`issueW5` yields the assignee that was active at the transition (`x`),
not the later current assignee (`y`). -/
theorem claim_C5_witness : allocateLoad id issueW5 = some "x" := by
  have h := claim_C5_allocate_selection id issueW5 rfl
    [itemAssignW5a] [itemAssignW5b] itemStatusW5 rfl
    (by intro it hit
        rw [List.mem_singleton] at hit
        subst hit
        rfl)
    rfl
  rw [h]
  rfl

/-! ## Rendering (C9) -/

/-- `JugglerTaskProperty.__str__` for the allocate property
(`TAB + '{prop} {value}\n'`; a `None` value renders nothing). -/
def renderAllocate (v : Option String) : String :=
  match v with
  | none => ""
  | some a => "    allocate " ++ a ++ "\n"

/-- `JugglerTaskProperty.__str__` for the effort property (suffix `d`;
`toString` of the rational stands in for Python's float formatting). -/
def renderEffort (v : Option ℚ) : String :=
  match v with
  | none => ""
  | some q => "    effort " ++ toString q ++ "d\n"

/-- `JugglerTaskDepends.__str__`: `!`-prefixed targets joined by `', '`,
nothing for an empty list. -/
def renderDepends (l : List String) : String :=
  match l with
  | [] => ""
  | _ =>
    "    depends " ++
      (l.foldl
        (fun acc v => (if acc ≠ "" then acc ++ ", " else acc) ++ "!" ++ v)
        "") ++ "\n"

/-- The textual form of a time value (the backdated token is
`%\x7b<date> - <days>d\x7d` in the source). -/
def renderTimeVal : TimeVal → String
  | .lit s => s
  | .backdated cur days => "%\x7b" ++ cur ++ " - " ++ toString days ++ "d\x7d"

/-- `JugglerTaskTime.__str__`: nothing while the value is falsy. -/
def renderTime (name : String) (v : TimeVal) : String :=
  match v with
  | .lit s => if s = "" then "" else "    " ++ name ++ " " ++ s ++ "\n"
  | .backdated cur days =>
    "    " ++ name ++ " " ++ renderTimeVal (.backdated cur days) ++ "\n"

/-- The concatenated property block of `JugglerTask.__str__`
(`"".join(map(str, self.properties.values()))`, in the fixed insertion
order allocate, effort, depends, time). -/
def renderProps (t : TaskCore) : String :=
  renderAllocate t.allocate ++ renderEffort t.effort ++
    renderDepends t.depends ++ renderTime t.timeName t.timeValue

/-- `JugglerTask.__str__` for a childless task (the `TEMPLATE` branch with
`children=""`); the description re-escapes quotes in the stored summary. -/
def renderFlat (t : JugglerTask) : String :=
  "\ntask " ++ to_identifier t.core.key ++ " \"" ++
    escapeQuotes t.core.summary ++ "\" \x7b\n    Jira \"" ++ t.core.key ++
    "\"\n" ++ renderProps t.core ++ "\n\n\x7d\n"

/-- Each title quote, after the loader's escape and the renderer's
re-escape, ends up preceded by two backslashes. -/
def doubleEscaped (s : String) : String :=
  ⟨s.data.flatMap (fun c => if c = '"' then ['\\', '\\', '"'] else [c])⟩

theorem escapeQuotes_escapeQuotes (s : String) :
    escapeQuotes (escapeQuotes s) = doubleEscaped s := by
  unfold escapeQuotes doubleEscaped
  refine congrArg String.mk ?_
  induction s.data with
  | nil => rfl
  | cons c l ih =>
    simp only [List.flatMap_cons, List.flatMap_append]
    rw [ih]
    by_cases hc : c = '"'
    · subst hc; rfl
    · simp [hc]

/-- Modelled from the claim's words, for comparison with the source (not
a translation of it): the rendered summary is the issue title truncated
to 70 characters with `'...'` appended exactly when that length is
exceeded, with each embedded double quote appearing backslash-escaped
exactly once. -/
def claimDescription (title : String) : String :=
  escapeQuotes
    (if title.data.length > 70 then ⟨title.data.take 70 ++ "...".data⟩
     else title)

/-- Issue whose title holds one embedded double quote (C9). -/
def issueC9 : JiraIssue :=
  { key := "C-9", summary := "a\"b", statusName := "Open", assignee := none,
    origEstimate := none, remEstimate := none, timespent := none,
    parentKey := none, epicKey := none, issueTypeName := "Task",
    histories := [], linkTargets := [] }

/-- Counterexample to C9 as stated: the rendered description of the task
loaded from a title with one embedded quote carries the quote escaped
twice (preceded by two backslashes), not once as the claim requires. -/
theorem claim_C9_counterexample :
    escapeQuotes ((JugglerTask.load id issueC9).core.summary) = "a\\\\\"b" ∧
    claimDescription "a\"b" = "a\\\"b" ∧
    escapeQuotes ((JugglerTask.load id issueC9).core.summary)
      ≠ claimDescription "a\"b" := by
  refine ⟨rfl, rfl, ?_⟩
  rw [show escapeQuotes ((JugglerTask.load id issueC9).core.summary)
      = "a\\\\\"b" from rfl,
    show claimDescription "a\"b" = "a\\\"b" from rfl]
  simp

/-- C9 (amended): the rendered description of a loaded task is the
quote-escaped title truncated at 70 characters of the escaped text, with
`'...'` appended exactly when the escaped length exceeds 70, re-escaped a
second time by the renderer — so that, absent truncation, every embedded
double quote of the title appears preceded by exactly two backslashes in
the rendered output. -/
theorem claim_C9_summary_render (resolve : String → String) (i : JiraIssue) :
    renderFlat (JugglerTask.load resolve i)
      = "\ntask " ++ to_identifier i.key ++ " \"" ++
          escapeQuotes (summaryFromTitle i.summary) ++ "\" \x7b\n    Jira \"" ++
          i.key ++ "\"\n" ++ renderProps (JugglerTask.load resolve i).core ++
          "\n\n\x7d\n" ∧
    ((escapeQuotes i.summary).data.length ≤ 70 →
      summaryFromTitle i.summary = escapeQuotes i.summary) ∧
    ((escapeQuotes i.summary).data.length > 70 →
      summaryFromTitle i.summary
        = ⟨(escapeQuotes i.summary).data.take 70 ++ "...".data⟩) ∧
    ((escapeQuotes i.summary).data.length ≤ 70 →
      escapeQuotes (summaryFromTitle i.summary) = doubleEscaped i.summary) := by
  refine ⟨rfl, ?_, ?_, ?_⟩
  · intro h
    unfold summaryFromTitle
    rw [if_neg (by omega)]
  · intro h
    unfold summaryFromTitle
    rw [if_pos h]
  · intro h
    have hs : summaryFromTitle i.summary = escapeQuotes i.summary := by
      unfold summaryFromTitle
      rw [if_neg (by omega)]
    rw [hs, escapeQuotes_escapeQuotes]

/-- Witness for the amended C9 at a short two-quote title. -/
theorem claim_C9_witness :
    renderFlat (JugglerTask.load id issueC9)
      = "\ntask " ++ to_identifier issueC9.key ++ " \"" ++
          escapeQuotes (summaryFromTitle issueC9.summary) ++
          "\" \x7b\n    Jira \"" ++ issueC9.key ++ "\"\n" ++
          renderProps (JugglerTask.load id issueC9).core ++ "\n\n\x7d\n" ∧
    summaryFromTitle issueC9.summary = escapeQuotes issueC9.summary ∧
    escapeQuotes (summaryFromTitle issueC9.summary)
      = doubleEscaped issueC9.summary := by
  obtain ⟨h1, h2, _, h4⟩ := claim_C9_summary_render id issueC9
  exact ⟨h1, h2 (by decide), h4 (by decide)⟩

/-! ## Validation (C1, C3) -/

/-- `JugglerTaskEffort.validate`: a `None` effort asserts the task is a
container (children present) and is left alone; an effort of exactly `0`
drops the task from the set; a positive effort below `MINIMAL_VALUE` is
clamped to it.  The result is `none` when the task is removed. -/
def effortValidate (t : JugglerTask) : Except String (Option JugglerTask) :=
  match t.core.effort with
  | none =>
    if t.children.isEmpty then
      .error "AssertionError: Effort is None only allowed for container tasks"
    else .ok (some t)
  | some v =>
    if v = 0 then .ok none
    else if v < minimalEffort then
      .ok (some (JugglerTask.mk { t.core with effort := some minimalEffort }
        t.children))
    else .ok (some t)

/-- The effort sweep of `validate_tasks`: each (top-level) task validates
its own effort, possibly removing itself from the list. -/
def effortPass : List JugglerTask → Except String (List JugglerTask)
  | [] => .ok []
  | t :: ts =>
    match effortValidate t with
    | .error e => .error e
    | .ok r =>
      match effortPass ts with
      | .error e => .error e
      | .ok rest =>
        match r with
        | some t' => .ok (t' :: rest)
        | none => .ok rest

/-- `JugglerTaskDepends.validate` applied to one task given the sanitized
identifiers of the whole current set: dependency targets outside the set
are removed. -/
def dependsFilterTask (ids : List String) (t : JugglerTask) : JugglerTask :=
  JugglerTask.mk
    { t.core with depends := t.core.depends.filter (fun d => decide (d ∈ ids)) }
    t.children

/-- The depends sweep of `validate_tasks` (the identifier list is
recomputed from the same, now effort-whittled, task list for each task). -/
def dependsPass (ts : List JugglerTask) : List JugglerTask :=
  ts.map (dependsFilterTask (ts.map (fun t => to_identifier t.core.key)))

/-- `JugglerTaskTime.validate`: once the time value is non-empty its name
must be `start` or `end`; anything else raises. -/
def timeValidate (t : JugglerTask) : Except String Unit :=
  match t.core.timeValue with
  | .lit s =>
    if s = "" then .ok ()
    else if t.core.timeName = "start" ∨ t.core.timeName = "end" then .ok ()
    else .error "ValueError: invalid time property name"
  | .backdated _ _ =>
    if t.core.timeName = "start" ∨ t.core.timeName = "end" then .ok ()
    else .error "ValueError: invalid time property name"

/-- The time sweep of `validate_tasks`. -/
def timePass : List JugglerTask → Except String Unit
  | [] => .ok ()
  | t :: ts =>
    match timeValidate t with
    | .error e => .error e
    | .ok _ => timePass ts

/-- `JiraJuggler.validate_tasks`: one sweep per property kind in the
fixed order allocate (a no-op: the allocate property defines no
`validate`), effort, depends, time, each over the whole task list. -/
def validate_tasks (ts : List JugglerTask) : Except String (List JugglerTask) :=
  match effortPass ts with
  | .error e => .error e
  | .ok ts1 =>
    match timePass (dependsPass ts1) with
    | .error e => .error e
    | .ok _ => .ok (dependsPass ts1)

theorem effortValidate_ok_some (t t' : JugglerTask)
    (h : effortValidate t = .ok (some t')) :
    (∃ v, t'.core.effort = some v ∧ minimalEffort ≤ v) ∨
    (t'.core.effort = none ∧ t'.children ≠ []) := by
  unfold effortValidate at h
  split at h
  next he =>
    split at h
    next => exact absurd h (by simp)
    next hc =>
      injection h with h
      injection h with h
      subst h
      exact Or.inr ⟨he, by simpa [List.isEmpty_iff] using hc⟩
  next v he =>
    split at h
    next => exact absurd h (by simp)
    next h0 =>
      split at h
      next hlt =>
        injection h with h
        injection h with h
        subst h
        exact Or.inl ⟨minimalEffort, rfl, le_refl _⟩
      next hlt =>
        injection h with h
        injection h with h
        subst h
        exact Or.inl ⟨v, he, le_of_not_lt hlt⟩

theorem effortPass_mem :
    ∀ (ts l : List JugglerTask), effortPass ts = .ok l → ∀ u ∈ l,
      (∃ v, u.core.effort = some v ∧ minimalEffort ≤ v) ∨
      (u.core.effort = none ∧ u.children ≠ [])
  | [], l, h, u, hu => by
    injection h with h
    subst h
    exact absurd hu (by simp)
  | t :: ts, l, h, u, hu => by
    unfold effortPass at h
    cases hev : effortValidate t with
    | error e => rw [hev] at h; exact absurd h (by simp)
    | ok r =>
      rw [hev] at h
      dsimp only at h
      cases hrest : effortPass ts with
      | error e => rw [hrest] at h; exact absurd h (by simp)
      | ok rest =>
        rw [hrest] at h
        dsimp only at h
        cases r with
        | some t' =>
          injection h with h
          subst h
          rcases List.mem_cons.mp hu with rfl | hu
          · exact effortValidate_ok_some t u hev
          · exact effortPass_mem ts rest hrest u hu
        | none =>
          injection h with h
          subst h
          exact effortPass_mem ts rest hrest u hu

theorem effortPass_clamp :
    ∀ (ts l : List JugglerTask), effortPass ts = .ok l →
      ∀ t ∈ ts, ∀ v, t.core.effort = some v → 0 < v → v < minimalEffort →
        JugglerTask.mk { t.core with effort := some minimalEffort }
          t.children ∈ l
  | [], _, _, t, ht, _, _, _, _ => absurd ht (by simp)
  | t0 :: ts, l, h, t, ht, v, hv, hpos, hlt => by
    unfold effortPass at h
    cases hev : effortValidate t0 with
    | error e => rw [hev] at h; exact absurd h (by simp)
    | ok r =>
      rw [hev] at h
      dsimp only at h
      cases hrest : effortPass ts with
      | error e => rw [hrest] at h; exact absurd h (by simp)
      | ok rest =>
        rw [hrest] at h
        dsimp only at h
        rcases List.mem_cons.mp ht with rfl | ht
        · have hcl : effortValidate t
              = .ok (some (JugglerTask.mk
                { t.core with effort := some minimalEffort } t.children)) := by
            unfold effortValidate
            rw [hv]
            dsimp only
            rw [if_neg (by intro h0; rw [h0] at hpos; exact lt_irrefl _ hpos),
              if_pos hlt]
          rw [hcl] at hev
          injection hev with hev
          subst hev
          injection h with h
          subst h
          exact List.mem_cons_self _ _
        · have hmem := effortPass_clamp ts rest hrest t ht v hv hpos hlt
          cases r with
          | some t' =>
            injection h with h
            subst h
            exact List.mem_cons_of_mem _ hmem
          | none =>
            injection h with h
            subst h
            exact hmem

theorem validate_tasks_ok (ts out : List JugglerTask)
    (h : validate_tasks ts = .ok out) :
    ∃ ts1, effortPass ts = .ok ts1 ∧ out = dependsPass ts1 := by
  unfold validate_tasks at h
  cases hep : effortPass ts with
  | error e => rw [hep] at h; exact absurd h (by simp)
  | ok ts1 =>
    rw [hep] at h
    dsimp only at h
    cases htp : timePass (dependsPass ts1) with
    | error e => rw [htp] at h; exact absurd h (by simp)
    | ok u =>
      rw [htp] at h
      dsimp only at h
      injection h with h
      exact ⟨ts1, rfl, h.symm⟩

@[simp] theorem dependsFilterTask_effort (ids : List String) (t : JugglerTask) :
    (dependsFilterTask ids t).core.effort = t.core.effort := rfl

@[simp] theorem dependsFilterTask_key (ids : List String) (t : JugglerTask) :
    (dependsFilterTask ids t).core.key = t.core.key := rfl

@[simp] theorem dependsFilterTask_children (ids : List String) (t : JugglerTask) :
    (dependsFilterTask ids t).children = t.children := rfl

/-- C1: after `validate_tasks` every surviving task either has effort at
least the 1/8-day floor or is a container with absent effort; a task
whose own effort was exactly 0 is gone from the output; a task with
effort strictly between 0 and 1/8 survives (per key) with its effort
clamped to exactly 1/8. -/
theorem claim_C1_effort_floor (ts out : List JugglerTask)
    (h : validate_tasks ts = .ok out) :
    (∀ t ∈ out, (∃ v, t.core.effort = some v ∧ minimalEffort ≤ v) ∨
      (t.core.effort = none ∧ t.children ≠ [])) ∧
    (∀ t ∈ ts, t.core.effort = some 0 → t ∉ out) ∧
    (∀ t ∈ ts, ∀ v, t.core.effort = some v → 0 < v → v < minimalEffort →
      ∃ u ∈ out, u.core.key = t.core.key ∧
        u.core.effort = some minimalEffort) := by
  obtain ⟨ts1, hep, rfl⟩ := validate_tasks_ok ts out h
  have hinv : ∀ t ∈ dependsPass ts1,
      (∃ v, t.core.effort = some v ∧ minimalEffort ≤ v) ∨
      (t.core.effort = none ∧ t.children ≠ []) := by
    intro t ht
    obtain ⟨w, hw, rfl⟩ := List.mem_map.mp ht
    have := effortPass_mem ts ts1 hep w hw
    simpa using this
  refine ⟨hinv, ?_, ?_⟩
  · intro t _ h0 hmem
    rcases hinv t hmem with ⟨v, hv, hle⟩ | ⟨hn, _⟩
    · rw [h0] at hv
      injection hv with hv
      rw [← hv] at hle
      have hq : (0 : ℚ) < minimalEffort := by norm_num [minimalEffort]
      exact absurd (lt_of_lt_of_le hq hle) (lt_irrefl _)
    · rw [h0] at hn; exact absurd hn (by simp)
  · intro t ht v hv hpos hlt
    have hmem := effortPass_clamp ts ts1 hep t ht v hv hpos hlt
    exact ⟨dependsFilterTask (ts1.map (fun t => to_identifier t.core.key))
      (JugglerTask.mk { t.core with effort := some minimalEffort } t.children),
      List.mem_map_of_mem _ hmem, rfl, rfl⟩

/-- Task with effort 1/16 (C1 witness data). -/
def taskC1a : JugglerTask :=
  .mk { baseCore with key := "L-1", effort := some (mkRat 1 16) } []

/-- Task with effort 0 (C1 witness data). -/
def taskC1z : JugglerTask :=
  .mk { baseCore with key := "Z-1", effort := some 0 } []

/-- The surviving clamped task (C1 witness data). -/
def taskC1out : JugglerTask :=
  .mk { baseCore with key := "L-1", effort := some minimalEffort } []

/-- Witness for C1: validating a 1/16-effort task and a 0-effort task
keeps only the former, clamped to the 1/8 floor. -/
theorem claim_C1_witness :
    taskC1z ∉ [taskC1out] ∧
    ∃ u ∈ [taskC1out], u.core.key = taskC1a.core.key ∧
      u.core.effort = some minimalEffort := by
  obtain ⟨_, h2, h3⟩ := claim_C1_effort_floor [taskC1a, taskC1z] [taskC1out] rfl
  exact ⟨h2 taskC1z (by simp) rfl,
    h3 taskC1a (by simp) (mkRat 1 16) rfl (by decide) (by decide)⟩

/-- C3 (amended): after `validate_tasks` every dependency identifier of
every top-level task refers to a top-level task of the output (targets
outside the set were removed by the depends sweep).  Dependency lists of
tasks nested as children of a container are not visited by validation —
see the counterexample for the original claim. -/
theorem claim_C3_depends_pruned (ts out : List JugglerTask)
    (h : validate_tasks ts = .ok out) :
    ∀ t ∈ out, ∀ d ∈ t.core.depends,
      ∃ u ∈ out, to_identifier u.core.key = d := by
  obtain ⟨ts1, hep, rfl⟩ := validate_tasks_ok ts out h
  intro t ht d hd
  obtain ⟨w, hw, rfl⟩ := List.mem_map.mp ht
  have hmem : d ∈ ts1.map (fun t => to_identifier t.core.key) := by
    have hd' : d ∈ w.core.depends.filter
        (fun d => decide (d ∈ ts1.map (fun t => to_identifier t.core.key))) := hd
    exact of_decide_eq_true (List.mem_filter.mp hd').2
  obtain ⟨u, hu, hid⟩ := List.mem_map.mp hmem
  exact ⟨dependsFilterTask (ts1.map (fun t => to_identifier t.core.key)) u,
    List.mem_map_of_mem _ hu, hid⟩

/-- Task depending on an in-scope and an out-of-scope target (C3 witness
data). -/
def taskC3a : JugglerTask :=
  .mk { baseCore with key := "A-1", depends := ["B_1", "X_1"] } []

/-- The in-scope dependency target (C3 witness data). -/
def taskC3b : JugglerTask :=
  .mk { baseCore with key := "B-1" } []

/-- `taskC3a` after validation pruned the dangling target (C3 witness
data). -/
def taskC3a' : JugglerTask :=
  .mk { baseCore with key := "A-1", depends := ["B_1"] } []

/-- Witness for the amended C3: the dangling `X_1` target is pruned and
the surviving `B_1` target resolves within the output. -/
theorem claim_C3_witness :
    ∃ u ∈ [taskC3a', taskC3b], to_identifier u.core.key = "B_1" := by
  have h := claim_C3_depends_pruned [taskC3a, taskC3b] [taskC3a', taskC3b] rfl
  exact h taskC3a' (by simp) "B_1" (by simp [taskC3a', baseCore])

/-! ## Hierarchy building (C2, C6) -/

/-- `task_by_key` membership: the keys of the task list. -/
def keysOf (ts : List JugglerTask) : List String := ts.map (·.core.key)

/-- The epic half of the attach decision
(`elif task.epic_key and task.epic_key in task_by_key`). -/
def epicAttach (keys : List String) (t : JugglerTask) : Option String :=
  match t.core.epicKey with
  | some e => if e ≠ "" ∧ e ∈ keys then some e else none
  | none => none

/-- Where `build_hierarchical_tasks` attaches a task: its parent when the
parent key is truthy and resolvable, else its epic under the same test,
else nowhere (the task stays top-level). -/
def attachTarget (keys : List String) (t : JugglerTask) : Option String :=
  match t.core.parentKey with
  | some p => if p ≠ "" ∧ p ∈ keys then some p else epicAttach keys t
  | none => epicAttach keys t

/-- The children the `add_child` loop leaves on `t`: its pre-existing
children (always `[]` for freshly loaded tasks) followed by the tasks of
the list whose attach decision selects `t`'s key, in list order. -/
def attachedChildren (ts : List JugglerTask) (t : JugglerTask) :
    List JugglerTask :=
  t.children ++ ts.filter (fun c => attachTarget (keysOf ts) c == some t.core.key)

/-- `orig in (None, 0)` of `_is_effectively_zero` (an absent attribute
reads as `None` through `getattr`). -/
def origIsNoneOrZero : Option (Option Int) → Bool
  | none => true
  | some none => true
  | some (some n) => n == 0

/-- `rem in (None, 0)` of `_is_effectively_zero`. -/
def remIsNoneOrZero : Option Int → Bool
  | none => true
  | some n => n == 0

/-- `JiraJuggler._process_epic_logic._is_effectively_zero`: source
original and remaining estimates both absent/zero and the computed effort
present and at most the minimal floor. -/
def effectivelyZero (t : JugglerTask) : Bool :=
  origIsNoneOrZero t.core.origEstimate && remIsNoneOrZero t.core.remEstimate &&
    (match t.core.effort with
     | none => false
     | some v => decide (v ≤ minimalEffort))

/-- `calculate_rolled_up_effort` as evaluated inside the epic sweep, on
the flat store: children of an epic already discarded earlier in the
sweep read as `[]`; recursion is fuel-bounded (the Python recursion would
not terminate on a cyclic key graph either). -/
def rolledUpLive (ts : List JugglerTask) (disc : List String) :
    Nat → JugglerTask → ℚ
  | 0, _ => 0
  | fuel + 1, t =>
    let cs := if t.core.key ∈ disc then [] else attachedChildren ts t
    if cs.isEmpty then
      if effortIsEmpty t.core.effort then 0 else t.core.effort.getD 0
    else (cs.map (rolledUpLive ts disc fuel)).sum

/-- The `0.01`-day tolerance of the epic-effort warning. -/
def epsWarn : ℚ := mkRat 1 100

theorem epsWarn_eq : epsWarn = 1 / 100 := by
  unfold epsWarn
  rw [Rat.mkRat_eq_div]
  norm_num

/-- State threaded through `_process_epic_logic`: keys of epics whose
children were discarded, keys collected in `tasks_to_remove`, keys warned
by the effort-mismatch rule, keys warned by the zero-estimate rule. -/
structure EpicState where
  discarded : List String
  removed : List String
  warned : List String
  zeroWarned : List String
  deriving DecidableEq, Repr

/-- One iteration of the `_process_epic_logic` loop. -/
def processEpicStep (ts : List JugglerTask) (st : EpicState)
    (t : JugglerTask) : EpicState :=
  let cs := attachedChildren ts t
  if t.core.isEpic && !cs.isEmpty then
    if cs.any effectivelyZero then
      { st with
        discarded := st.discarded ++ [t.core.key]
        removed := st.removed ++ cs.map (·.core.key) ++
          (if t.core.effort == some 0 then [t.core.key] else [])
        zeroWarned := st.zeroWarned ++
          (if t.core.effort == some 0 then [t.core.key] else []) }
    else
      let total := (cs.map (rolledUpLive ts st.discarded ts.length)).sum
      { st with
        warned := st.warned ++
          (if (match t.core.effort with
               | some e => decide (0 < e)
               | none => false) && decide (0 < total) &&
              decide (epsWarn < |t.core.effort.getD 0 - total|) then
            [t.core.key]
          else []) }
  else st

/-- `JiraJuggler._process_epic_logic` over the task list, as the fold of
its loop body. -/
def processEpicLogic (ts : List JugglerTask) : EpicState :=
  ts.foldl (processEpicStep ts) ⟨[], [], [], []⟩

/-- Whether an epic discards its children (state-independent part of the
loop body): an epic with attached children at least one of which is
effectively zero. -/
def discards (ts : List JugglerTask) (t : JugglerTask) : Bool :=
  t.core.isEpic && !(attachedChildren ts t).isEmpty &&
    (attachedChildren ts t).any effectivelyZero

/-- Materialises the final object graph: children after attach and epic
discard, effort force-cleared for container tasks that survived into the
post-removal list (`postKeys`). -/
def buildTree (ts : List JugglerTask) (disc postKeys : List String) :
    Nat → JugglerTask → JugglerTask
  | 0, t => t
  | fuel + 1, t =>
    let live := if t.core.key ∈ disc then [] else attachedChildren ts t
    JugglerTask.mk
      { t.core with
          effort :=
            if t.core.key ∈ postKeys ∧ ¬ live.isEmpty then none
            else t.core.effort }
      (live.map (buildTree ts disc postKeys fuel))

/-- `JiraJuggler.build_hierarchical_tasks`: attach children, run the epic
sweep, drop removed tasks, clear container efforts, and return the
top-level tasks (those with no resolvable parent/epic reference). -/
def build_hierarchical_tasks (ts : List JugglerTask) : List JugglerTask :=
  let st := processEpicLogic ts
  let post := ts.filter (fun t => decide (t.core.key ∉ st.removed))
  (post.filter (fun t => attachTarget (keysOf ts) t == none)).map
    (buildTree ts st.discarded (post.map (·.core.key)) ts.length)

mutual

/-- A task together with all tasks nested below it. -/
def subtasks : JugglerTask → List JugglerTask
  | .mk c cs => .mk c cs :: subtasksList cs

/-- All tasks of a forest, nested ones included. -/
def subtasksList : List JugglerTask → List JugglerTask
  | [] => []
  | t :: rest => subtasks t ++ subtasksList rest

end

mutual

/-- `JugglerTask.calculate_rolled_up_effort` on the final object graph:
the sum of the children's roll-ups for a container, the own effort (0
when the property is empty) for a leaf. -/
def calculate_rolled_up_effort : JugglerTask → ℚ
  | .mk c cs =>
    if cs.isEmpty then
      if effortIsEmpty c.effort then 0 else c.effort.getD 0
    else sumRolledUp cs

/-- Sum of `calculate_rolled_up_effort` over a child list. -/
def sumRolledUp : List JugglerTask → ℚ
  | [] => 0
  | t :: rest => calculate_rolled_up_effort t + sumRolledUp rest

end

mutual

/-- The leaf descendants of a task (the task itself when childless). -/
def leafTasks : JugglerTask → List JugglerTask
  | .mk c cs => if cs.isEmpty then [.mk c cs] else leafTasksList cs

/-- The leaf descendants of a forest. -/
def leafTasksList : List JugglerTask → List JugglerTask
  | [] => []
  | t :: rest => leafTasks t ++ leafTasksList rest

end

theorem processEpicStep_discarded (ts : List JugglerTask) (st : EpicState)
    (t : JugglerTask) :
    (processEpicStep ts st t).discarded
      = st.discarded ++ (if discards ts t then [t.core.key] else []) := by
  unfold processEpicStep discards
  cases hA : (t.core.isEpic && !(attachedChildren ts t).isEmpty) with
  | false => simp [hA]
  | true =>
    cases hB : (attachedChildren ts t).any effectivelyZero with
    | false => simp [hA, hB]
    | true => simp [hA, hB]

theorem processEpicStep_removed (ts : List JugglerTask) (st : EpicState)
    (t : JugglerTask) :
    (processEpicStep ts st t).removed
      = st.removed ++
        (if discards ts t then
          (attachedChildren ts t).map (·.core.key) ++
            (if t.core.effort == some 0 then [t.core.key] else [])
        else []) := by
  unfold processEpicStep discards
  cases hA : (t.core.isEpic && !(attachedChildren ts t).isEmpty) with
  | false => simp [hA]
  | true =>
    cases hB : (attachedChildren ts t).any effectivelyZero with
    | false => simp [hA, hB]
    | true => simp [hA, hB]

theorem processEpicStep_warned (ts : List JugglerTask) (st : EpicState)
    (t : JugglerTask) :
    (processEpicStep ts st t).warned
      = st.warned ++
        (if t.core.isEpic && !(attachedChildren ts t).isEmpty &&
            !(attachedChildren ts t).any effectivelyZero then
          (if (match t.core.effort with
               | some e => decide (0 < e)
               | none => false) &&
              decide (0 < ((attachedChildren ts t).map
                (rolledUpLive ts st.discarded ts.length)).sum) &&
              decide (epsWarn < |t.core.effort.getD 0 -
                ((attachedChildren ts t).map
                  (rolledUpLive ts st.discarded ts.length)).sum|) then
            [t.core.key]
          else [])
        else []) := by
  unfold processEpicStep
  cases hA : (t.core.isEpic && !(attachedChildren ts t).isEmpty) with
  | false => simp [hA]
  | true =>
    cases hB : (attachedChildren ts t).any effectivelyZero with
    | false => simp [hA, hB]
    | true => simp [hA, hB]

theorem foldl_epic_discarded (ts : List JugglerTask) :
    ∀ (l : List JugglerTask) (st : EpicState),
      (l.foldl (processEpicStep ts) st).discarded
        = st.discarded ++ (l.filter (discards ts)).map (·.core.key)
  | [], st => by simp
  | t :: l, st => by
    rw [List.foldl_cons, foldl_epic_discarded ts l,
      processEpicStep_discarded, List.filter_cons]
    cases h : discards ts t with
    | false => simp [h]
    | true => simp [h]

theorem foldl_epic_removed (ts : List JugglerTask) :
    ∀ (l : List JugglerTask) (st : EpicState),
      (l.foldl (processEpicStep ts) st).removed
        = st.removed ++
          l.flatMap (fun t =>
            if discards ts t then
              (attachedChildren ts t).map (·.core.key) ++
                (if t.core.effort == some 0 then [t.core.key] else [])
            else [])
  | [], st => by simp
  | t :: l, st => by
    rw [List.foldl_cons, foldl_epic_removed ts l,
      processEpicStep_removed, List.flatMap_cons]
    cases h : discards ts t with
    | false => simp [h]
    | true => simp [h]

theorem mem_discardedKeys (ts : List JugglerTask) (k : String) :
    k ∈ (processEpicLogic ts).discarded ↔
      ∃ t ∈ ts, discards ts t = true ∧ k = t.core.key := by
  unfold processEpicLogic
  rw [foldl_epic_discarded]
  simp only [List.nil_append, List.mem_map, List.mem_filter]
  constructor
  · rintro ⟨t, ⟨ht, hd⟩, rfl⟩
    exact ⟨t, ht, hd, rfl⟩
  · rintro ⟨t, ht, hd, rfl⟩
    exact ⟨t, ⟨ht, hd⟩, rfl⟩

theorem mem_removedKeys (ts : List JugglerTask) (k : String) :
    k ∈ (processEpicLogic ts).removed ↔
      ∃ t ∈ ts, discards ts t = true ∧
        (k ∈ (attachedChildren ts t).map (·.core.key) ∨
          (t.core.effort = some 0 ∧ k = t.core.key)) := by
  unfold processEpicLogic
  rw [foldl_epic_removed]
  simp only [List.nil_append, List.mem_flatMap]
  constructor
  · rintro ⟨t, ht, hk⟩
    cases hd : discards ts t with
    | false => rw [hd] at hk; simp at hk
    | true =>
      rw [hd] at hk
      simp only [if_true] at hk
      rcases List.mem_append.mp hk with hk | hk
      · exact ⟨t, ht, hd, Or.inl hk⟩
      · cases he : (t.core.effort == some 0) with
        | false => rw [he] at hk; simp at hk
        | true =>
          rw [he] at hk
          simp only [if_true, List.mem_singleton] at hk
          exact ⟨t, ht, hd, Or.inr ⟨by simpa using he, hk⟩⟩
  · rintro ⟨t, ht, hd, hk | ⟨he, rfl⟩⟩
    · refine ⟨t, ht, ?_⟩
      rw [hd]
      simp only [if_true]
      exact List.mem_append.mpr (Or.inl hk)
    · refine ⟨t, ht, ?_⟩
      rw [hd]
      simp only [if_true]
      refine List.mem_append.mpr (Or.inr ?_)
      rw [show (t.core.effort == some 0) = true by simpa using he]
      simp

theorem key_inj {ts : List JugglerTask}
    (hnodup : (ts.map (·.core.key)).Nodup) {a b : JugglerTask}
    (ha : a ∈ ts) (hb : b ∈ ts) (hk : a.core.key = b.core.key) : a = b :=
  List.inj_on_of_nodup_map hnodup ha hb hk

theorem mem_subtasksList :
    ∀ (l : List JugglerTask) (u : JugglerTask),
      u ∈ subtasksList l ↔ ∃ c ∈ l, u ∈ subtasks c
  | [], u => by simp [subtasksList]
  | t :: l, u => by
    rw [subtasksList, List.mem_append, mem_subtasksList l u]
    constructor
    · rintro (h | ⟨c, hc, hu⟩)
      · exact ⟨t, List.mem_cons_self _ _, h⟩
      · exact ⟨c, List.mem_cons_of_mem _ hc, hu⟩
    · rintro ⟨c, hc, hu⟩
      rcases List.mem_cons.mp hc with rfl | hc
      · exact Or.inl hu
      · exact Or.inr ⟨c, hc, hu⟩

theorem attachedChildren_flat {ts : List JugglerTask}
    (hflat : ∀ t ∈ ts, t.children = []) {t : JugglerTask} (ht : t ∈ ts) :
    attachedChildren ts t
      = ts.filter (fun c => attachTarget (keysOf ts) c == some t.core.key) := by
  unfold attachedChildren
  rw [hflat t ht, List.nil_append]

theorem mem_attachedChildren_flat {ts : List JugglerTask}
    (hflat : ∀ t ∈ ts, t.children = []) {t c : JugglerTask} (ht : t ∈ ts)
    (hc : c ∈ attachedChildren ts t) :
    c ∈ ts ∧ attachTarget (keysOf ts) c = some t.core.key := by
  rw [attachedChildren_flat hflat ht] at hc
  have h := List.mem_filter.mp hc
  exact ⟨h.1, by simpa using h.2⟩

theorem buildTree_container_clear (ts : List JugglerTask)
    (disc postK : List String) (hflat : ∀ t ∈ ts, t.children = [])
    (hchild : ∀ t c, t ∈ ts → t.core.key ∉ disc →
      c ∈ attachedChildren ts t →
      ((¬((if c.core.key ∈ disc then [] else attachedChildren ts c).isEmpty
          = true) → c.core.key ∈ postK) ∧ c ∈ ts)) :
    ∀ (fuel : Nat) (t : JugglerTask), t ∈ ts →
      (¬((if t.core.key ∈ disc then [] else attachedChildren ts t).isEmpty
        = true) → t.core.key ∈ postK) →
      ∀ u ∈ subtasks (buildTree ts disc postK fuel t),
        u.children ≠ [] → u.core.effort = none
  | 0, t, ht, _, u, hu, hune => by
    have hc := hflat t ht
    cases t with
    | mk c cs =>
      simp only [JugglerTask.children_mk] at hc
      subst hc
      simp only [buildTree, subtasks, subtasksList] at hu
      rcases List.mem_cons.mp hu with rfl | hu
      · exact absurd rfl hune
      · exact absurd hu (by simp)
  | fuel + 1, t, ht, hpost, u, hu, hune => by
    rw [buildTree] at hu
    simp only [subtasks] at hu
    rcases List.mem_cons.mp hu with rfl | hu
    · simp only [JugglerTask.children_mk] at hune
      simp only [JugglerTask.core_mk]
      have hlive : ¬((if t.core.key ∈ disc then []
          else attachedChildren ts t).isEmpty = true) := by
        intro he
        rw [List.isEmpty_iff] at he
        rw [he] at hune
        exact hune rfl
      rw [if_pos ⟨hpost hlive, by simpa [List.isEmpty_iff] using hlive⟩]
    · obtain ⟨c', hc', hu⟩ := (mem_subtasksList _ u).mp hu
      obtain ⟨c, hc, rfl⟩ := List.mem_map.mp hc'
      by_cases hd : t.core.key ∈ disc
      · rw [if_pos hd] at hc
        exact absurd hc (by simp)
      · rw [if_neg hd] at hc
        obtain ⟨hcpost, hcts⟩ := hchild t c ht hd hc
        exact buildTree_container_clear ts disc postK hflat hchild
          fuel c hcts hcpost u hu hune

theorem child_post_ok (ts : List JugglerTask)
    (hflat : ∀ t ∈ ts, t.children = [])
    (hnodup : (ts.map (·.core.key)).Nodup) :
    ∀ t c, t ∈ ts → t.core.key ∉ (processEpicLogic ts).discarded →
      c ∈ attachedChildren ts t →
      ((¬((if c.core.key ∈ (processEpicLogic ts).discarded then []
          else attachedChildren ts c).isEmpty = true) →
        c.core.key ∈ (ts.filter (fun x =>
          decide (x.core.key ∉ (processEpicLogic ts).removed))).map
            (·.core.key)) ∧ c ∈ ts) := by
  intro t c ht htd hc
  obtain ⟨hcts, hctgt⟩ := mem_attachedChildren_flat hflat ht hc
  refine ⟨?_, hcts⟩
  intro hlive
  have hcd : c.core.key ∉ (processEpicLogic ts).discarded := by
    intro hmem
    rw [if_pos hmem] at hlive
    exact hlive rfl
  have hcrem : c.core.key ∉ (processEpicLogic ts).removed := by
    intro hmem
    obtain ⟨e, he, hde, hcase⟩ := (mem_removedKeys ts _).mp hmem
    rcases hcase with hk | ⟨_, hk⟩
    · obtain ⟨c', hc', hkey⟩ := List.mem_map.mp hk
      obtain ⟨hc'ts, hc'tgt⟩ := mem_attachedChildren_flat hflat he hc'
      have : c' = c := key_inj hnodup hc'ts hcts hkey
      subst this
      rw [hctgt] at hc'tgt
      injection hc'tgt with hkeq
      have : e = t := key_inj hnodup he ht hkeq.symm
      subst this
      exact htd ((mem_discardedKeys ts _).mpr ⟨e, he, hde, rfl⟩)
    · have : e = c := key_inj hnodup he hcts hk.symm
      subst this
      exact hcd ((mem_discardedKeys ts _).mpr ⟨e, he, hde, rfl⟩)
  refine List.mem_map.mpr ⟨c, ?_, rfl⟩
  exact List.mem_filter.mpr ⟨hcts, by simpa using hcrem⟩

/-- The leaf contribution of a task to a roll-up: its own effort, or 0
when the effort property is empty. -/
def leafEffortVal (u : JugglerTask) : ℚ :=
  if effortIsEmpty u.core.effort then 0 else u.core.effort.getD 0

mutual

theorem calc_leaf_sum :
    ∀ t : JugglerTask,
      calculate_rolled_up_effort t = ((leafTasks t).map leafEffortVal).sum
  | .mk c cs => by
    rw [calculate_rolled_up_effort, leafTasks]
    cases cs with
    | nil => simp [leafEffortVal]
    | cons t rest =>
      rw [if_neg (by simp), if_neg (by simp)]
      exact calcList_leaf_sum (t :: rest)

theorem calcList_leaf_sum :
    ∀ l : List JugglerTask,
      sumRolledUp l = ((leafTasksList l).map leafEffortVal).sum
  | [] => by simp [sumRolledUp, leafTasksList]
  | t :: l => by
    rw [sumRolledUp, leafTasksList, calc_leaf_sum t, calcList_leaf_sum l,
      List.map_append, List.sum_append]

end

/-- C2: in the forest returned by `build_hierarchical_tasks` (given
fresh, childless input tasks with distinct keys) every task with a
non-empty children list carries effort `None`; and
`calculate_rolled_up_effort` is the own effort for a leaf (0 when the
effort property `is_empty`), the sum over the children for a container —
equivalently, the sum of the leaf descendants' contributions with no
contribution from any container. -/
theorem claim_C2_container_rollup (ts : List JugglerTask)
    (hflat : ∀ t ∈ ts, t.children = [])
    (hnodup : (ts.map (·.core.key)).Nodup) :
    (∀ u ∈ subtasksList (build_hierarchical_tasks ts),
      u.children ≠ [] → u.core.effort = none) ∧
    (∀ t : JugglerTask,
      (t.children = [] → calculate_rolled_up_effort t
        = (if effortIsEmpty t.core.effort then 0 else t.core.effort.getD 0)) ∧
      (t.children ≠ [] →
        calculate_rolled_up_effort t = sumRolledUp t.children)) ∧
    (∀ t : JugglerTask, calculate_rolled_up_effort t
      = ((leafTasks t).map leafEffortVal).sum) := by
  refine ⟨?_, ?_, calc_leaf_sum⟩
  · intro u hu hune
    unfold build_hierarchical_tasks at hu
    obtain ⟨r', hr', hu⟩ := (mem_subtasksList _ u).mp hu
    obtain ⟨r, hr, rfl⟩ := List.mem_map.mp hr'
    have hrpost := (List.mem_filter.mp hr).1
    have hrts : r ∈ ts := (List.mem_filter.mp hrpost).1
    refine buildTree_container_clear ts (processEpicLogic ts).discarded
      ((ts.filter (fun x =>
        decide (x.core.key ∉ (processEpicLogic ts).removed))).map
          (·.core.key)) hflat (child_post_ok ts hflat hnodup)
      ts.length r hrts ?_ u hu hune
    intro _
    exact List.mem_map.mpr ⟨r, hrpost, rfl⟩
  · intro t
    cases t with
    | mk c cs =>
      rw [calculate_rolled_up_effort]
      constructor
      · intro hcs
        simp only [JugglerTask.children_mk] at hcs
        subst hcs
        simp
      · intro hcs
        simp only [JugglerTask.children_mk] at hcs
        rw [if_neg (by simpa [List.isEmpty_iff] using hcs)]
        rfl

/-- Parent task (C2 witness data). -/
def taskP2 : JugglerTask := .mk { baseCore with key := "P-1" } []

/-- Subtask of `taskP2` (C2 witness data). -/
def taskQ2 : JugglerTask :=
  .mk { baseCore with key := "Q-1", parentKey := some "P-1" } []

/-- Witness for C2: building the two-task hierarchy leaves the parent as
a container with cleared effort. -/
theorem claim_C2_witness :
    ∃ u ∈ subtasksList (build_hierarchical_tasks [taskP2, taskQ2]),
      u.children ≠ [] ∧ u.core.effort = none := by
  obtain ⟨h1, _, _⟩ := claim_C2_container_rollup [taskP2, taskQ2]
    (by
      intro t ht
      rcases List.mem_cons.mp ht with rfl | ht
      · rfl
      · rcases List.mem_cons.mp ht with rfl | ht
        · rfl
        · exact absurd ht (by simp))
    (by decide)
  have hb : build_hierarchical_tasks [taskP2, taskQ2]
      = [JugglerTask.mk { baseCore with key := "P-1", effort := none }
          [taskQ2]] := rfl
  have hmem : JugglerTask.mk { baseCore with key := "P-1", effort := none }
      [taskQ2] ∈ subtasksList (build_hierarchical_tasks [taskP2, taskQ2]) := by
    rw [hb]
    simp [subtasksList, subtasks]
  have hne : (JugglerTask.mk { baseCore with key := "P-1", effort := none }
      [taskQ2]).children ≠ [] := by simp
  exact ⟨_, hmem, hne, h1 _ hmem hne⟩

/-- Epic task (C3 counterexample data). -/
def taskE3 : JugglerTask :=
  .mk { baseCore with key := "E-3", isEpic := true } []

/-- Child of the epic carrying a dangling dependency target (C3
counterexample data). -/
def taskN3 : JugglerTask :=
  .mk { { baseCore with key := "N-3", epicKey := some "E-3" } with
        depends := ["X_1"], origEstimate := some (some 28800) } []

/-- The container the C3 counterexample's pipeline produces. -/
def taskE3out : JugglerTask :=
  .mk { baseCore with key := "E-3", isEpic := true, effort := none } [taskN3]

/-- Counterexample to C3 as stated: with hierarchy support on, the nested
child keeps its dependency on `X_1` through validation even though no
task of the output has that identifier — the depends sweep only visits
top-level tasks. -/
theorem claim_C3_counterexample :
    validate_tasks (build_hierarchical_tasks [taskE3, taskN3])
      = .ok [taskE3out] ∧
    (∃ u ∈ subtasksList [taskE3out], "X_1" ∈ u.core.depends) ∧
    (∀ w ∈ subtasksList [taskE3out], to_identifier w.core.key ≠ "X_1") := by
  refine ⟨rfl, ⟨taskN3, ?_, ?_⟩, ?_⟩
  · simp [subtasksList, subtasks, taskN3, taskE3out]
  · simp [taskN3, baseCore]
  · intro w hw
    simp only [subtasksList, subtasks, taskN3, taskE3out, List.append_nil,
      List.mem_cons, List.not_mem_nil, or_false] at hw
    rcases hw with rfl | rfl
    · decide
    · decide

/-- C6 (amended): for an epic with attached children — if at least one
child is effectively zero, the epic's children are all collected for
removal and the epic is discarded (its built node is a leaf), the epic
itself additionally removed (with the zero-estimate warning) exactly when
its own effort is 0, and no effort-mismatch warning is emitted; otherwise
nothing is removed and the effort-mismatch warning fires if and only if
the epic's own effort is positive, the children's rolled-up total is
positive, and the two differ by more than the 0.01-day tolerance. -/
theorem claim_C6_epic_children (ts : List JugglerTask) (st : EpicState)
    (t : JugglerTask) (hepic : t.core.isEpic = true)
    (hcs : attachedChildren ts t ≠ []) :
    ((attachedChildren ts t).any effectivelyZero = true →
      (processEpicStep ts st t).discarded = st.discarded ++ [t.core.key] ∧
      (∀ c ∈ attachedChildren ts t,
        c.core.key ∈ (processEpicStep ts st t).removed) ∧
      (∀ post fuel,
        (buildTree ts (processEpicStep ts st t).discarded post (fuel + 1)
          t).children = []) ∧
      (t.core.effort = some 0 →
        t.core.key ∈ (processEpicStep ts st t).removed ∧
        t.core.key ∈ (processEpicStep ts st t).zeroWarned) ∧
      (processEpicStep ts st t).warned = st.warned) ∧
    ((attachedChildren ts t).any effectivelyZero = false →
      (processEpicStep ts st t).discarded = st.discarded ∧
      (processEpicStep ts st t).removed = st.removed ∧
      (processEpicStep ts st t).zeroWarned = st.zeroWarned ∧
      ((t.core.key ∈ (processEpicStep ts st t).warned ↔
        t.core.key ∈ st.warned ∨
        (∃ e, t.core.effort = some e ∧ 0 < e ∧
          0 < ((attachedChildren ts t).map
            (rolledUpLive ts st.discarded ts.length)).sum ∧
          epsWarn < |e - ((attachedChildren ts t).map
            (rolledUpLive ts st.discarded ts.length)).sum|)))) := by
  have hne : (attachedChildren ts t).isEmpty = false := by
    cases hcase : attachedChildren ts t with
    | nil => exact absurd hcase hcs
    | cons a l => rfl
  have hA : (t.core.isEpic && !(attachedChildren ts t).isEmpty) = true := by
    rw [hepic, hne]
    rfl
  constructor
  · intro hz
    have hstep : processEpicStep ts st t
        = { st with
            discarded := st.discarded ++ [t.core.key]
            removed := st.removed ++
              (attachedChildren ts t).map (·.core.key) ++
              (if t.core.effort == some 0 then [t.core.key] else [])
            zeroWarned := st.zeroWarned ++
              (if t.core.effort == some 0 then [t.core.key] else []) } := by
      unfold processEpicStep
      simp [hA, hz]
    refine ⟨by rw [hstep], ?_, ?_, ?_, by rw [hstep]⟩
    · intro c hc
      rw [hstep]
      simp only [List.append_assoc, List.mem_append]
      exact Or.inr (Or.inl (List.mem_map_of_mem _ hc))
    · intro post fuel
      rw [buildTree]
      have hmem : t.core.key ∈ (processEpicStep ts st t).discarded := by
        rw [hstep]
        simp
      rw [if_pos hmem]
      simp
    · intro h0
      have h0b : (t.core.effort == some 0) = true := by simp [h0]
      rw [hstep]
      constructor
      · simp [h0b]
      · simp [h0b]
  · intro hz
    have hstep : processEpicStep ts st t
        = { st with
            warned := st.warned ++
              (if (match t.core.effort with
                   | some e => decide (0 < e)
                   | none => false) &&
                  decide (0 < ((attachedChildren ts t).map
                    (rolledUpLive ts st.discarded ts.length)).sum) &&
                  decide (epsWarn < |t.core.effort.getD 0 -
                    ((attachedChildren ts t).map
                      (rolledUpLive ts st.discarded ts.length)).sum|) then
                [t.core.key]
              else []) } := by
      unfold processEpicStep
      simp [hA, hz]
    refine ⟨by rw [hstep], by rw [hstep], by rw [hstep], ?_⟩
    rw [hstep]
    cases he : t.core.effort with
    | none =>
      simp only [he]
      constructor
      · intro h
        rcases List.mem_append.mp h with h | h
        · exact Or.inl h
        · simp at h
      · rintro (h | ⟨e, he2, _⟩)
        · exact List.mem_append.mpr (Or.inl h)
        · exact absurd he2 (by simp)
    | some e =>
      simp only [he, Option.getD_some]
      by_cases h1 : 0 < e
      · by_cases h2 : 0 < ((attachedChildren ts t).map
            (rolledUpLive ts st.discarded ts.length)).sum
        · by_cases h3 : epsWarn < |e - ((attachedChildren ts t).map
              (rolledUpLive ts st.discarded ts.length)).sum|
          · rw [if_pos (by simp [h1, h2, h3])]
            constructor
            · intro h
              rcases List.mem_append.mp h with h | h
              · exact Or.inl h
              · exact Or.inr ⟨e, rfl, h1, h2, h3⟩
            · intro _
              simp
          · rw [if_neg (by simp [h3])]
            constructor
            · intro h
              exact Or.inl (by simpa using h)
            · rintro (h | ⟨e2, he2, _, _, h3'⟩)
              · simpa using h
              · injection he2 with he2
                subst he2
                exact absurd h3' h3
        · rw [if_neg (by simp [h2])]
          constructor
          · intro h
            exact Or.inl (by simpa using h)
          · rintro (h | ⟨e2, he2, _, h2', _⟩)
            · simpa using h
            · injection he2 with he2
              subst he2
              exact absurd h2' h2
      · rw [if_neg (by simp [h1])]
        constructor
        · intro h
          exact Or.inl (by simpa using h)
        · rintro (h | ⟨e2, he2, h1', _, _⟩)
          · simpa using h
          · injection he2 with he2
            subst he2
            exact absurd h1' h1

/-- Epic with a positive effort of 5 days (C6 counterexample data). -/
def epicC6 : JugglerTask :=
  .mk { baseCore with key := "E-6", effort := some 5, isEpic := true } []

/-- Child of `epicC6`: a real 3600-second original estimate, zero
remaining estimate, computed effort at the floor — so not effectively
zero, yet rolling up to 0 because a floor-valued effort `is_empty`
(C6 counterexample data). -/
def childC6 : JugglerTask :=
  .mk { { baseCore with key := "C-6", epicKey := some "E-6" } with
        origEstimate := some (some 3600), remEstimate := some 0,
        effort := some minimalEffort } []

/-- Counterexample to C6 as stated: `epicC6` has positive effort 5
differing from its children's rolled-up total (0) by far more than the
0.01-day tolerance, no child is effectively zero, and yet the sweep emits
no effort-mismatch warning, because the warning additionally requires the
rolled-up total to be positive. -/
theorem claim_C6_counterexample :
    epicC6.core.isEpic = true ∧
    attachedChildren [epicC6, childC6] epicC6 = [childC6] ∧
    (attachedChildren [epicC6, childC6] epicC6).any effectivelyZero
      = false ∧
    epicC6.core.effort = some 5 ∧ (0 : ℚ) < 5 ∧
    epsWarn < |(5 : ℚ) - ((attachedChildren [epicC6, childC6] epicC6).map
      (rolledUpLive [epicC6, childC6] []
        [epicC6, childC6].length)).sum| ∧
    (processEpicLogic [epicC6, childC6]).warned = [] := by
  have htot : ((attachedChildren [epicC6, childC6] epicC6).map
      (rolledUpLive [epicC6, childC6] ([] : List String)
        [epicC6, childC6].length)).sum = 0 := by
    rw [show attachedChildren [epicC6, childC6] epicC6 = [childC6] from rfl]
    simp only [List.map_cons, List.map_nil, List.sum_cons, List.sum_nil]
    rw [show rolledUpLive [epicC6, childC6] ([] : List String)
      [epicC6, childC6].length childC6 = 0 from rfl]
    simp
  have h1 : (processEpicStep [epicC6, childC6] ⟨[], [], [], []⟩
      epicC6).warned = [] := by
    rw [processEpicStep_warned]
    rw [htot]
    simp
  refine ⟨rfl, rfl, rfl, rfl, by norm_num, ?_, ?_⟩
  · rw [htot, epsWarn_eq]
    norm_num
  · unfold processEpicLogic
    rw [List.foldl_cons, List.foldl_cons, List.foldl_nil,
      processEpicStep_warned, h1]
    rw [show childC6.core.isEpic = false from rfl]
    simp

/-- Witness for the amended C6: on `epicC6` (no effectively-zero child)
the sweep removes and discards nothing. -/
theorem claim_C6_witness :
    (processEpicStep [epicC6, childC6] ⟨[], [], [], []⟩ epicC6).removed
      = [] ∧
    (processEpicStep [epicC6, childC6] ⟨[], [], [], []⟩ epicC6).discarded
      = [] := by
  obtain ⟨_, h⟩ := claim_C6_epic_children [epicC6, childC6] ⟨[], [], [], []⟩
    epicC6 rfl
    (by
      intro hnil
      rw [show attachedChildren [epicC6, childC6] epicC6 = [childC6] from rfl]
        at hnil
      simp at hnil)
  obtain ⟨hd, hr, _, _⟩ := h rfl
  exact ⟨hr, hd⟩

/-! ## Preceding-task chaining (C7) -/

/-- The `current_date` parameter: enough calendar structure for
`to_juggler_date` (naive datetime at hour resolution) and
`calculate_weekends` (weekday index, Monday = 0, and seconds since
midnight). -/
structure JDateTime where
  year : Nat
  month : Nat
  day : Nat
  hour : Nat
  weekday : Nat
  secondsSinceMidnight : Nat
  deriving DecidableEq, Repr

/-- Zero-padded two-digit rendering (strftime). -/
def pad2 (n : Nat) : String := if n < 10 then "0" ++ toString n else toString n

/-- Zero-padded four-digit rendering (strftime). -/
def pad4 (n : Nat) : String :=
  if n < 10 then "000" ++ toString n
  else if n < 100 then "00" ++ toString n
  else if n < 1000 then "0" ++ toString n
  else toString n

/-- `to_juggler_date` of a naive datetime: `%Y-%m-%d-%H:00-%z` with the
empty timezone rendering and the trailing dash stripped. -/
def toJugglerDate (d : JDateTime) : String :=
  pad4 d.year ++ "-" ++ pad2 d.month ++ "-" ++ pad2 d.day ++ "-" ++
    pad2 d.hour ++ ":00"

/-- `JugglerTask.resolved_at_repr`: the juggler rendering of the
resolution stamp, empty when not resolved (the textual format of the
parsed stamp is abstracted to `toString`; no claim reads it). -/
def resolvedAtRepr (t : JugglerTask) : String :=
  match t.core.resolvedAtDate with
  | some d => toString d
  | none => ""

/-- `calculate_weekends`: workday fraction of the current day from the
9:00 workday start (`timedelta.seconds` wraps negatives modulo 86400),
capped day-of-week position, then the number of weekend gaps within the
workdays to travel back. -/
def calculate_weekends (cur : JDateTime) (workdaysPassed wm : ℚ) : ℚ :=
  let pct : ℚ :=
    ((((cur.secondsSinceMidnight : Int) - 32400).emod 86400 : Int) : ℚ) /
      effortFactor
  let daw : ℚ := min ((cur.weekday : ℚ) + pct) wm
  let rem := workdaysPassed - daw
  if 0 < rem then 1 + ((⌊rem / wm⌋ : Int) : ℚ) else 0

/-- The `unresolved_tasks` dict of `link_to_preceding_task`: assignee →
keys of that assignee's unresolved tasks seen so far, in insertion
order. -/
def AssigneeMap : Type := List (Option String × List String)

/-- Dict lookup. -/
def lookupA : AssigneeMap → Option String → Option (List String)
  | [], _ => none
  | (k, v) :: rest, a => if k = a then some v else lookupA rest a

/-- `unresolved_tasks.setdefault(assignee, []).append(task)`. -/
def updateA : AssigneeMap → Option String → String → AssigneeMap
  | [], a, key => [(a, [key])]
  | (k, v) :: rest, a, key =>
    if k = a then (k, v ++ [key]) :: rest
    else (k, v) :: updateA rest a key

/-- The `for identifier in depends_property.value` loop testing whether
any dependency target is unresolved; a target missing from
`id_to_task_map` raises `KeyError`. -/
def anyUnresolvedDep (idMap : List JugglerTask) :
    List String → Except String Bool
  | [] => .ok false
  | d :: ds =>
    match idMap.find? (fun p => to_identifier p.core.key == d) with
    | none => .error "KeyError"
    | some p =>
      if !p.is_resolved then .ok true else anyUnresolvedDep idMap ds

/-- The start-time branch: when time was logged the effort is topped up
by the logged time, and the start token is the current date backdated by
`days_spent` plus the weekend correction (a `None` effort — a container —
would raise `TypeError` on the `+=`). -/
def setStartTime (wm : ℚ) (cur : JDateTime) (t : JugglerTask) :
    Except String JugglerTask :=
  match t.core.timespent with
  | some ts0 =>
    if ts0 ≠ 0 then
      match t.core.effort with
      | none => .error "TypeError: cannot add to None effort"
      | some e =>
        let days_spent : ℚ := ((ts0.fdiv 3600 : Int) : ℚ) / 8
        let weekends := calculate_weekends cur days_spent wm
        let dpw : ℚ := min 2 (7 - wm)
        .ok (JugglerTask.mk
          { t.core with
              effort := some (e + (ts0 : ℚ) / effortFactor)
              timeName := "start"
              timeValue := .backdated (toJugglerDate cur)
                (days_spent + weekends * dpw) } t.children)
    else
      .ok (JugglerTask.mk
        { t.core with
            timeName := "start"
            timeValue := .lit (toJugglerDate cur) } t.children)
  | none =>
    .ok (JugglerTask.mk
      { t.core with
          timeName := "start"
          timeValue := .lit (toJugglerDate cur) } t.children)

/-- One iteration of the `link_to_preceding_task` loop: a resolved task
gets `end` at its resolution date and its depends cleared; an unresolved
task either chains to the assignee's preceding unresolved task, or (first
for its assignee) gets a start time unless one of its dependency targets
is still unresolved; every unresolved task is recorded in the map. -/
def chainStep (idMap : List JugglerTask) (wm : ℚ) (cur : JDateTime)
    (st : AssigneeMap) (t : JugglerTask) :
    Except String (JugglerTask × AssigneeMap) :=
  if t.is_resolved then
    .ok (JugglerTask.mk
      { t.core with
          depends := []
          timeName := "end"
          timeValue := .lit (resolvedAtRepr t) } t.children, st)
  else
    match lookupA st t.core.allocate with
    | some bucket =>
      match bucket.getLast? with
      | some k =>
        .ok (JugglerTask.mk
          { t.core with
              depends := appendValue t.core.depends (to_identifier k) }
            t.children,
          updateA st t.core.allocate t.core.key)
      | none => .error "empty assignee bucket"
    | none =>
      match anyUnresolvedDep idMap t.core.depends with
      | .error e => .error e
      | .ok true => .ok (t, updateA st t.core.allocate t.core.key)
      | .ok false =>
        match setStartTime wm cur t with
        | .error e => .error e
        | .ok t' => .ok (t', updateA st t.core.allocate t.core.key)

/-- The loop of `link_to_preceding_task` over the remaining tasks. -/
def chainGo (idMap : List JugglerTask) (wm : ℚ) (cur : JDateTime) :
    AssigneeMap → List JugglerTask → Except String (List JugglerTask)
  | _, [] => .ok []
  | st, t :: rest =>
    match chainStep idMap wm cur st t with
    | .error e => .error e
    | .ok (t1, st1) =>
      match chainGo idMap wm cur st1 rest with
      | .error e => .error e
      | .ok rest1 => .ok (t1 :: rest1)

/-- `JiraJuggler.link_to_preceding_task` (`id_to_task_map` is built from
the input list; the list order is preserved and each task is rewritten
only at its own iteration). -/
def link_to_preceding_task (wm : ℚ) (cur : JDateTime)
    (tasks : List JugglerTask) : Except String (List JugglerTask) :=
  chainGo tasks wm cur [] tasks

/-- The key of the last unresolved task with the given allocate value in
a prefix of the input (the "immediately preceding" task of C7). -/
def lastUnresolvedKey (pre : List JugglerTask) (a : Option String) :
    Option String :=
  ((pre.filter (fun p => !p.is_resolved && p.core.allocate == a)).map
    (·.core.key)).getLast?

/-- What C7 predicts for one task, as a function of the *prefix* of the
input list before it (rather than of the loop state). -/
def chainResult (idMap : List JugglerTask) (wm : ℚ) (cur : JDateTime)
    (pre : List JugglerTask) (t : JugglerTask) :
    Except String JugglerTask :=
  if t.is_resolved then
    .ok (JugglerTask.mk
      { t.core with
          depends := []
          timeName := "end"
          timeValue := .lit (resolvedAtRepr t) } t.children)
  else
    match lastUnresolvedKey pre t.core.allocate with
    | some k =>
      .ok (JugglerTask.mk
        { t.core with
            depends := appendValue t.core.depends (to_identifier k) }
          t.children)
    | none =>
      match anyUnresolvedDep idMap t.core.depends with
      | .error e => .error e
      | .ok true => .ok t
      | .ok false => setStartTime wm cur t

/-- The bucket `lastUnresolvedKey` reads: `none` when the assignee has no
unresolved task in the prefix, otherwise the keys in order. -/
def bucketSpec (pre : List JugglerTask) (a : Option String) :
    Option (List String) :=
  let l := (pre.filter (fun p => !p.is_resolved && p.core.allocate == a)).map
    (·.core.key)
  if l = [] then none else some l

theorem lookupA_updateA_same :
    ∀ (st : AssigneeMap) (a : Option String) (k : String),
      lookupA (updateA st a k) a = some ((lookupA st a).getD [] ++ [k])
  | [], a, k => by simp [updateA, lookupA]
  | (b, v) :: rest, a, k => by
    unfold updateA
    by_cases hb : b = a
    · subst hb
      simp [lookupA]
    · rw [if_neg hb]
      unfold lookupA
      rw [if_neg hb, if_neg hb]
      exact lookupA_updateA_same rest a k

theorem lookupA_updateA_other :
    ∀ (st : AssigneeMap) (a a2 : Option String) (k : String), a2 ≠ a →
      lookupA (updateA st a k) a2 = lookupA st a2
  | [], a, a2, k, h => by
    unfold updateA lookupA
    rw [if_neg (fun hh => h hh.symm)]
    rfl
  | (b, v) :: rest, a, a2, k, h => by
    unfold updateA
    by_cases hb : b = a
    · subst hb
      rw [if_pos rfl]
      unfold lookupA
      rw [if_neg (fun hh => h hh.symm), if_neg (fun hh => h hh.symm)]
    · rw [if_neg hb]
      unfold lookupA
      by_cases hb2 : b = a2
      · rw [if_pos hb2, if_pos hb2]
      · rw [if_neg hb2, if_neg hb2]
        exact lookupA_updateA_other rest a a2 k h

theorem chainStep_eq (idMap : List JugglerTask) (wm : ℚ) (cur : JDateTime)
    (pre : List JugglerTask) (st : AssigneeMap) (t : JugglerTask)
    (hinv : ∀ a, lookupA st a = bucketSpec pre a) :
    chainStep idMap wm cur st t
      = match chainResult idMap wm cur pre t with
        | .error e => .error e
        | .ok t1 => .ok (t1,
            if t.is_resolved then st
            else updateA st t.core.allocate t.core.key) := by
  unfold chainStep chainResult
  cases hres : t.is_resolved with
  | true => simp [hres]
  | false =>
    simp only [hres, Bool.false_eq_true, if_false]
    rw [hinv t.core.allocate]
    unfold bucketSpec lastUnresolvedKey
    by_cases hnil : ((pre.filter
        (fun p => !p.is_resolved && p.core.allocate == t.core.allocate)).map
          (·.core.key)) = []
    · rw [if_pos hnil, hnil]
      dsimp only
      cases had : anyUnresolvedDep idMap t.core.depends with
      | error e => simp [had]
      | ok b =>
        cases b with
        | true => simp [had]
        | false =>
          simp only [had]
          cases hset : setStartTime wm cur t with
          | error e => simp [hset]
          | ok t2 => simp [hset]
    · rw [if_neg hnil]
      dsimp only
      cases hg : ((pre.filter
          (fun p => !p.is_resolved && p.core.allocate == t.core.allocate)).map
            (·.core.key)).getLast? with
      | none =>
        rw [List.getLast?_eq_none_iff] at hg
        exact absurd hg hnil
      | some k => simp [hg]

theorem bucketSpec_append (pre : List JugglerTask) (t : JugglerTask)
    (st : AssigneeMap) (hinv : ∀ a, lookupA st a = bucketSpec pre a) :
    ∀ a, lookupA
        (if t.is_resolved then st
         else updateA st t.core.allocate t.core.key) a
      = bucketSpec (pre ++ [t]) a := by
  intro a
  cases hres : t.is_resolved with
  | true =>
    simp only [hres, if_true]
    rw [hinv a]
    unfold bucketSpec
    rw [List.filter_append]
    simp [hres]
  | false =>
    simp only [hres, Bool.false_eq_true, if_false]
    by_cases ha : a = t.core.allocate
    · subst ha
      rw [lookupA_updateA_same, hinv]
      unfold bucketSpec
      rw [List.filter_append]
      simp only [List.filter_cons, List.filter_nil, hres, Bool.not_false,
        beq_self_eq_true, Bool.and_self, if_true, List.map_append,
        List.map_cons, List.map_nil]
      by_cases hl : ((pre.filter
          (fun p => !p.is_resolved && p.core.allocate == t.core.allocate)).map
            (·.core.key)) = []
      · rw [if_pos hl, hl]
        simp
      · rw [if_neg hl, if_neg (by simp)]
        simp
    · rw [lookupA_updateA_other _ _ _ _ ha, hinv]
      unfold bucketSpec
      rw [List.filter_append]
      have hbeq : (t.core.allocate == a) = false := by
        rw [beq_eq_false_iff_ne]
        exact fun hh => ha hh.symm
      simp [hbeq]

theorem chainGo_spec (idMap : List JugglerTask) (wm : ℚ) (cur : JDateTime) :
    ∀ (rest pre : List JugglerTask) (st : AssigneeMap)
      (out : List JugglerTask),
      (∀ a, lookupA st a = bucketSpec pre a) →
      chainGo idMap wm cur st rest = .ok out →
      out.length = rest.length ∧
      ∀ (i : Nat) (t0 : JugglerTask), rest[i]? = some t0 →
        ∃ t1, out[i]? = some t1 ∧
          chainResult idMap wm cur (pre ++ rest.take i) t0 = .ok t1
  | [], pre, st, out, _, h => by
    injection h with h
    subst h
    exact ⟨rfl, by intro i t0 h0; simp at h0⟩
  | t :: rest, pre, st, out, hinv, h => by
    unfold chainGo at h
    rw [chainStep_eq idMap wm cur pre st t hinv] at h
    cases hcr : chainResult idMap wm cur pre t with
    | error e => rw [hcr] at h; exact absurd h (by simp)
    | ok t1 =>
      rw [hcr] at h
      dsimp only at h
      cases hrec : chainGo idMap wm cur
          (if t.is_resolved then st
           else updateA st t.core.allocate t.core.key) rest with
      | error e => rw [hrec] at h; exact absurd h (by simp)
      | ok rest1 =>
        rw [hrec] at h
        dsimp only at h
        injection h with h
        subst h
        obtain ⟨hlen, hidx⟩ := chainGo_spec idMap wm cur rest (pre ++ [t])
          _ rest1 (bucketSpec_append pre t st hinv) hrec
        refine ⟨by simp [hlen], ?_⟩
        intro i t0 h0
        cases i with
        | zero =>
          simp only [List.getElem?_cons_zero] at h0
          injection h0 with h0
          subst h0
          exact ⟨t1, by simp, by simpa using hcr⟩
        | succ j =>
          simp only [List.getElem?_cons_succ] at h0
          obtain ⟨t2, hmem, hres⟩ := hidx j t0 h0
          refine ⟨t2, by simpa using hmem, ?_⟩
          rw [List.take_succ_cons,
            show pre ++ t :: rest.take j = (pre ++ [t]) ++ rest.take j by
              simp]
          exact hres

/-- C7: with chaining enabled, each task's outcome is determined by the
prefix of the (already ordered) list before it: a resolved task gets
`end` at its resolution-date representation with its depends cleared; an
unresolved task whose assignee has a preceding unresolved task in the
prefix gets that task's identifier appended to its depends; the first
unresolved task for an assignee gets a `start` time (backdated via the
logged-time/weekend computation of `setStartTime` when time was logged)
exactly when none of its dependency targets is unresolved, and is left
untouched otherwise — as captured by `chainResult` over the prefix. -/
theorem claim_C7_preceding_chain (tasks out : List JugglerTask) (wm : ℚ)
    (cur : JDateTime)
    (h : link_to_preceding_task wm cur tasks = .ok out) :
    out.length = tasks.length ∧
    ∀ (i : Nat) (t0 : JugglerTask), tasks[i]? = some t0 →
      ∃ t1, out[i]? = some t1 ∧
        chainResult tasks wm cur (tasks.take i) t0 = .ok t1 := by
  have hinv : ∀ a, lookupA ([] : AssigneeMap) a = bucketSpec [] a := by
    intro a
    simp [lookupA, bucketSpec]
  obtain ⟨hlen, hidx⟩ := chainGo_spec tasks wm cur tasks [] [] out hinv h
  refine ⟨hlen, ?_⟩
  intro i t0 h0
  obtain ⟨t1, hmem, hres⟩ := hidx i t0 h0
  exact ⟨t1, hmem, by simpa using hres⟩

/-- Wall-clock used by the C7 witness: Monday 2024-01-15, 10:00. -/
def curW7 : JDateTime := ⟨2024, 1, 15, 10, 0, 36000⟩

/-- First unresolved task of the C7 witness (assignee `u`). -/
def taskU1 : JugglerTask := JugglerTask.mk { baseCore with key := "U-1" } []

/-- Second unresolved task of the C7 witness (same assignee). -/
def taskU2 : JugglerTask := JugglerTask.mk { baseCore with key := "U-2" } []

/-- What the chain makes of `taskU1`: a `start` at the current date. -/
def taskU1start : JugglerTask :=
  JugglerTask.mk
    { baseCore with
        key := "U-1"
        timeName := "start"
        timeValue := .lit (toJugglerDate curW7) } []

/-- What the chain makes of `taskU2`: a dependency on `U_1`. -/
def taskU2dep : JugglerTask :=
  JugglerTask.mk { baseCore with key := "U-2", depends := ["U_1"] } []

/-- Witness for C7: two unresolved tasks of one assignee; the first gets
a start time, the second a dependency on the first. -/
theorem claim_C7_witness :
    link_to_preceding_task 5 curW7 [taskU1, taskU2]
      = .ok [taskU1start, taskU2dep] ∧
    (∃ t1, ([taskU1start, taskU2dep] : List JugglerTask)[1]? = some t1 ∧
      chainResult [taskU1, taskU2] 5 curW7 [taskU1] taskU2 = .ok t1) ∧
    taskU1start.core.timeName = "start" ∧
    to_identifier taskU1.core.key ∈ taskU2dep.core.depends := by
  have h : link_to_preceding_task 5 curW7 [taskU1, taskU2]
      = .ok [taskU1start, taskU2dep] := by rfl
  obtain ⟨hlen, hidx⟩ := claim_C7_preceding_chain [taskU1, taskU2]
    [taskU1start, taskU2dep] 5 curW7 h
  exact ⟨h, hidx 1 taskU2 rfl, rfl, by decide⟩
